import Mathlib

/-!
# Moving-average filter bank and IR distance conversion

A shallow embedding of `inc/LPF.c`, `inc/IRDistance.c`, `inc/PWM.c`, the
polling loop of `Lab1_C_Programming/main.c` and the tick handler and obstacle
tests of `Lab5_UARTComms/Lab5_UARTmain.c`.

* `uint32_t` values are natural numbers below `2 ^ 32`; every arithmetic
  operation of the source is reduced modulo `2 ^ 32` where the C operation is.
* `int32_t` values are integers; signed overflow and division by zero have no
  defined result in C and are reported as a `Fault`.
* The module-level variables of `LPF.c` form one record, `LPFMem`; each C
  function is a function on that record.
* The arrays `x`, `x2`, `x3` (1024 elements each) are maps from indices to
  values; an access at an index outside `0 .. 1023` is a `Fault`.
-/

namespace Sc2107

/-! ## Machine arithmetic -/

/-- Addition of two `uint32_t` values. -/
def add32 (a b : Nat) : Nat := (a + b) % 2 ^ 32

/-- Subtraction of two `uint32_t` values (wraps below zero). -/
def sub32 (a b : Nat) : Nat := (a + (2 ^ 32 - b % 2 ^ 32)) % 2 ^ 32

/-- Multiplication of two `uint32_t` values. -/
def mul32 (a b : Nat) : Nat := (a * b) % 2 ^ 32

/-- Conversion of an integer to `uint32_t`. -/
def toU32 (z : Int) : Nat := (z % 2 ^ 32).toNat

/-- Conversion of a `uint32_t` to `int32_t` (two's complement). -/
def toI32 (n : Nat) : Int :=
  if n % 2 ^ 32 < 2 ^ 31 then ((n % 2 ^ 32 : Nat) : Int) else ((n % 2 ^ 32 : Nat) : Int) - 2 ^ 32

/-- Executions that C leaves without a defined result. -/
inductive Fault where
  | divideByZero
  | indexOutOfBounds
  | signedOverflow
  deriving DecidableEq, Repr

/-! ## LPF.c -/

/-- The module-level variables of `LPF.c` (the unused pointers `Pt`, `Pt2`,
`Pt3` are left out). -/
structure LPFMem where
  Size : Nat
  x : Nat → Nat
  I1 : Nat
  LPFSum : Nat
  Size2 : Nat
  x2 : Nat → Nat
  I2 : Nat
  LPFSum2 : Nat
  Size3 : Nat
  x3 : Nat → Nat
  I3 : Nat
  LPFSum3 : Nat

/-- The state at program start: every variable is zero. -/
def LPFMem.zero : LPFMem :=
  { Size := 0, x := fun _ => 0, I1 := 0, LPFSum := 0,
    Size2 := 0, x2 := fun _ => 0, I2 := 0, LPFSum2 := 0,
    Size3 := 0, x3 := fun _ => 0, I3 := 0, LPFSum3 := 0 }

/-- The loop `for(i=0; i<Size; i++){ x[i] = initial; }`, started at `i` and
run for at most `fuel` iterations. -/
def LPF_Init_loop (initial Size : Nat) : Nat → Nat → (Nat → Nat) → (Nat → Nat)
  | 0, _, x => x
  | fuel + 1, i, x =>
    if i < Size then LPF_Init_loop initial Size fuel (i + 1) (Function.update x i initial)
    else x

/-- `void LPF_Init(uint32_t initial, uint32_t size)`. -/
def LPF_Init (g : LPFMem) (initial size : Nat) : LPFMem :=
  let size := if size > 1024 then 1024 else size
  let Size := size
  let I1 := sub32 Size 1
  let LPFSum := mul32 Size initial
  { g with Size := Size, I1 := I1, LPFSum := LPFSum,
           x := LPF_Init_loop initial Size 1024 0 g.x }

/-- The statements of `LPF_Calc` before its `return`. -/
def LPF_Calc_body (g : LPFMem) (newdata : Nat) : Except Fault LPFMem :=
  if g.I1 < 1024 then
    let LPFSum := sub32 (add32 g.LPFSum newdata) (g.x g.I1)
    let x := Function.update g.x g.I1 newdata
    let I1 := if g.I1 = 0 then sub32 g.Size 1 else g.I1 - 1
    .ok { g with LPFSum := LPFSum, x := x, I1 := I1 }
  else .error .indexOutOfBounds

/-- `uint32_t LPF_Calc(uint32_t newdata)`: the new state and the returned value. -/
def LPF_Calc (g : LPFMem) (newdata : Nat) : Except Fault (LPFMem × Nat) :=
  match LPF_Calc_body g newdata with
  | .error e => .error e
  | .ok g1 => if g1.Size = 0 then .error .divideByZero else .ok (g1, g1.LPFSum / g1.Size)

/-- The loop of `LPF_Init2`. -/
def LPF_Init2_loop (initial Size2 : Nat) : Nat → Nat → (Nat → Nat) → (Nat → Nat)
  | 0, _, x2 => x2
  | fuel + 1, i, x2 =>
    if i < Size2 then LPF_Init2_loop initial Size2 fuel (i + 1) (Function.update x2 i initial)
    else x2

/-- `void LPF_Init2(uint32_t initial, uint32_t size)`. -/
def LPF_Init2 (g : LPFMem) (initial size : Nat) : LPFMem :=
  let size := if size > 1024 then 1024 else size
  let Size2 := size
  let I2 := sub32 Size2 1
  let LPFSum2 := mul32 Size2 initial
  { g with Size2 := Size2, I2 := I2, LPFSum2 := LPFSum2,
           x2 := LPF_Init2_loop initial Size2 1024 0 g.x2 }

/-- The statements of `LPF_Calc2` before its `return`. -/
def LPF_Calc2_body (g : LPFMem) (newdata : Nat) : Except Fault LPFMem :=
  if g.I2 < 1024 then
    let LPFSum2 := sub32 (add32 g.LPFSum2 newdata) (g.x2 g.I2)
    let x2 := Function.update g.x2 g.I2 newdata
    let I2 := if g.I2 = 0 then sub32 g.Size2 1 else g.I2 - 1
    .ok { g with LPFSum2 := LPFSum2, x2 := x2, I2 := I2 }
  else .error .indexOutOfBounds

/-- `uint32_t LPF_Calc2(uint32_t newdata)`. -/
def LPF_Calc2 (g : LPFMem) (newdata : Nat) : Except Fault (LPFMem × Nat) :=
  match LPF_Calc2_body g newdata with
  | .error e => .error e
  | .ok g1 => if g1.Size2 = 0 then .error .divideByZero else .ok (g1, g1.LPFSum2 / g1.Size2)

/-- The loop of `LPF_Init3`. -/
def LPF_Init3_loop (initial Size3 : Nat) : Nat → Nat → (Nat → Nat) → (Nat → Nat)
  | 0, _, x3 => x3
  | fuel + 1, i, x3 =>
    if i < Size3 then LPF_Init3_loop initial Size3 fuel (i + 1) (Function.update x3 i initial)
    else x3

/-- `void LPF_Init3(uint32_t initial, uint32_t size)`. -/
def LPF_Init3 (g : LPFMem) (initial size : Nat) : LPFMem :=
  let size := if size > 1024 then 1024 else size
  let Size3 := size
  let I3 := sub32 Size3 1
  let LPFSum3 := mul32 Size3 initial
  { g with Size3 := Size3, I3 := I3, LPFSum3 := LPFSum3,
           x3 := LPF_Init3_loop initial Size3 1024 0 g.x3 }

/-- The statements of `LPF_Calc3` before its `return`. -/
def LPF_Calc3_body (g : LPFMem) (newdata : Nat) : Except Fault LPFMem :=
  if g.I3 < 1024 then
    let LPFSum3 := sub32 (add32 g.LPFSum3 newdata) (g.x3 g.I3)
    let x3 := Function.update g.x3 g.I3 newdata
    let I3 := if g.I3 = 0 then sub32 g.Size3 1 else g.I3 - 1
    .ok { g with LPFSum3 := LPFSum3, x3 := x3, I3 := I3 }
  else .error .indexOutOfBounds

/-- `uint32_t LPF_Calc3(uint32_t newdata)`. -/
def LPF_Calc3 (g : LPFMem) (newdata : Nat) : Except Fault (LPFMem × Nat) :=
  match LPF_Calc3_body g newdata with
  | .error e => .error e
  | .ok g1 => if g1.Size3 = 0 then .error .divideByZero else .ok (g1, g1.LPFSum3 / g1.Size3)

/-! ## IRDistance.c -/

/-- `int32_t LeftConvert(int32_t nl)`: the quotient is stored in a `uint32_t`
local and returned as `int32_t`. -/
def LeftConvert (nl : Int) : Except Fault Int :=
  let d := nl - 2630
  if d < -2147483648 ∨ 2147483647 < d then .error .signedOverflow
  else if d = 0 then .error .divideByZero
  else .ok (toI32 (toU32 (Int.tdiv 100000 d)))

/-- `int32_t CenterConvert(int32_t nc)`. -/
def CenterConvert (nc : Int) : Except Fault Int :=
  let d := nc - 1558
  if d < -2147483648 ∨ 2147483647 < d then .error .signedOverflow
  else if d = 0 then .error .divideByZero
  else .ok (Int.tdiv 836100 d)

/-- `int32_t RightConvert(uint32_t nr)`: subtraction and division are done in
`uint32_t`; the quotient is returned as `int32_t`. -/
def RightConvert (nr : Nat) : Except Fault Int :=
  let d := sub32 nr 2390
  if d = 0 then .error .divideByZero
  else .ok (toI32 (100000 / d))

/-! ## Callers and specification-side notions -/

/-- A caller feeding samples to `LPF_Calc` one after the other; the state
after the last call. -/
def LPF_feed (g : LPFMem) : List Nat → Except Fault LPFMem
  | [] => .ok g
  | d :: ds =>
    match LPF_Calc g d with
    | .error e => .error e
    | .ok r => LPF_feed r.1 ds

/-- The last `w` elements of a list. -/
def lastN (w : Nat) (l : List Nat) : List Nat := l.drop (l.length - w)

/-- The samples a filter of window `w` seeded with `v` averages after it has
been fed `samples`: the last `w` elements of `w` copies of `v` followed by the
samples. -/
def history (v w : Nat) (samples : List Nat) : List Nat :=
  lastN w (List.replicate w v ++ samples)

/-- The exact sum of the values stored in `x[0 .. Size-1]`. -/
def bufSum (g : LPFMem) : Nat := ((List.range g.Size).map g.x).sum

/-- The contents of `x[0 .. Size-1]`. -/
def bufList (g : LPFMem) : List Nat := (List.range g.Size).map g.x


/-- The contents of `x[0 .. Size-1]` read in order of age, oldest first: from
the cursor `I1` down to slot 0, then from slot `Size-1` down to `I1+1`. -/
def window (g : LPFMem) : List Nat :=
  (List.range g.Size).map
    (fun j => g.x (if j ≤ g.I1 then g.I1 - j else g.I1 + g.Size - j))

/-- Channel 1 holds window size `w`, a cursor inside the window, the samples
`hist` (oldest first) and their sum reduced modulo `2 ^ 32`. -/
def FilterInv (w : Nat) (g : LPFMem) (hist : List Nat) : Prop :=
  g.Size = w ∧ g.I1 < w ∧ window g = hist ∧ g.LPFSum = hist.sum % 2 ^ 32

/-- The value a call returns, when it returns one. -/
def returned (r : Except Fault (LPFMem × Nat)) : Option Nat :=
  match r with
  | .ok p => some p.2
  | .error _ => none

/-- A state of channel 1 that a caller can reach after `LPF_Init(_, w)` by
calls of `LPF_Calc`. -/
def Reachable (w : Nat) (g : LPFMem) : Prop :=
  ∃ (g0 : LPFMem) (v0 : Nat) (pre : List Nat), LPF_feed (LPF_Init g0 v0 w) pre = .ok g

/-! ## Channels and call traces -/

/-- The three filter channels. -/
inductive Channel where
  | one
  | two
  | three
  deriving DecidableEq, Repr

/-- The variables of one channel: window size, buffer, cursor and sum. -/
def chanState (c : Channel) (g : LPFMem) : Nat × (Nat → Nat) × Nat × Nat :=
  match c with
  | .one => (g.Size, g.x, g.I1, g.LPFSum)
  | .two => (g.Size2, g.x2, g.I2, g.LPFSum2)
  | .three => (g.Size3, g.x3, g.I3, g.LPFSum3)

/-- A call of one of the six functions of `LPF.c`. -/
inductive Call where
  | Init (initial size : Nat)
  | Calc (newdata : Nat)
  | Init2 (initial size : Nat)
  | Calc2 (newdata : Nat)
  | Init3 (initial size : Nat)
  | Calc3 (newdata : Nat)
  deriving DecidableEq

/-- The channel a call belongs to. -/
def Call.channel : Call → Channel
  | .Init _ _ => .one
  | .Calc _ => .one
  | .Init2 _ _ => .two
  | .Calc2 _ => .two
  | .Init3 _ _ => .three
  | .Calc3 _ => .three

/-- Performs one call: the new state and the value returned, if the function
returns one. -/
def Call.exec (g : LPFMem) : Call → Except Fault (LPFMem × Option Nat)
  | .Init v w => .ok (LPF_Init g v w, none)
  | .Calc d =>
    match LPF_Calc g d with
    | .error e => .error e
    | .ok r => .ok (r.1, some r.2)
  | .Init2 v w => .ok (LPF_Init2 g v w, none)
  | .Calc2 d =>
    match LPF_Calc2 g d with
    | .error e => .error e
    | .ok r => .ok (r.1, some r.2)
  | .Init3 v w => .ok (LPF_Init3 g v w, none)
  | .Calc3 d =>
    match LPF_Calc3 g d with
    | .error e => .error e
    | .ok r => .ok (r.1, some r.2)

/-- The values of `out` tagged with channel `c`. -/
def tagged (c : Channel) (out : Option Nat) : List (Channel × Nat) :=
  match out with
  | some y => [(c, y)]
  | none => []

/-- A caller performing calls one after the other: the final state and the
returned values in order, each with its channel. -/
def runCalls (g : LPFMem) : List Call → Except Fault (LPFMem × List (Channel × Nat))
  | [] => .ok (g, [])
  | c :: cs =>
    match c.exec g with
    | .error e => .error e
    | .ok r =>
      match runCalls r.1 cs with
      | .error e => .error e
      | .ok r2 => .ok (r2.1, tagged c.channel r.2 ++ r2.2)

/-- The output sequence of channel `c`. -/
def chanOutputs (c : Channel) (outs : List (Channel × Nat)) : List Nat :=
  (outs.filter (fun p => decide (p.1 = c))).map Prod.snd

/-- The calls of a trace made on channel `c`. -/
def callsOn (c : Channel) (t : List Call) : List Call :=
  t.filter (fun k => decide (k.channel = c))

/-- The output sequence of channel `c` in a run of calls, when the run has
no fault. -/
def runOutputs (c : Channel) (g : LPFMem) (t : List Call) : Option (List Nat) :=
  match runCalls g t with
  | .ok r => some (chanOutputs c r.2)
  | .error _ => none

/-! ## The naive filter -/

/-- The sum of a list of `uint32_t` values in wrapping 32-bit arithmetic. -/
def sum32 (l : List Nat) : Nat := l.foldl add32 0

/-- The naive filter the running sum replaces: store the new sample at the
cursor slot, add up all `Size` slots in 32-bit arithmetic and divide by
`Size`. -/
def naive_Calc (g : LPFMem) (newdata : Nat) : Nat :=
  sum32 ((List.range g.Size).map (Function.update g.x g.I1 newdata)) / g.Size

/-! ## PWM.c -/

/-- The registers `PWM_Init34` writes: port 2 direction and function select
(8 bits each) and the Timer A0 capture/compare control and value arrays, the
expansion register and the control register (16 bits each). -/
structure PWMRegs where
  P2_DIR : Nat
  P2_SEL0 : Nat
  P2_SEL1 : Nat
  CCTL : Nat → Nat
  CCR : Nat → Nat
  EX0 : Nat
  CTL : Nat

/-- `void PWM_Init34(uint16_t period, uint16_t duty3, uint16_t duty4)`. -/
def PWM_Init34 (r : PWMRegs) (period duty3 duty4 : Nat) : PWMRegs :=
  if duty3 ≥ period then r
  else if duty4 ≥ period then r
  else
    let r := { r with P2_DIR := (r.P2_DIR ||| 0xC0) % 256 }
    let r := { r with P2_SEL0 := (r.P2_SEL0 ||| 0xC0) % 256 }
    let r := { r with P2_SEL1 := (r.P2_SEL1 &&& 0xFFFFFF3F) % 256 }
    let r := { r with CCTL := Function.update r.CCTL 0 0x0080 }
    let r := { r with CCR := Function.update r.CCR 0 period }
    let r := { r with EX0 := 0x0000 }
    let r := { r with CCTL := Function.update r.CCTL 3 0x0040 }
    let r := { r with CCR := Function.update r.CCR 3 duty3 }
    let r := { r with CCTL := Function.update r.CCTL 4 0x0040 }
    let r := { r with CCR := Function.update r.CCR 4 duty4 }
    { r with CTL := 0x02F0 }

/-! ## Lab 1: switches and LEDs -/

/-- The port registers the polling loop of Lab 1 reads and writes (8 bits
each). -/
structure GPIO where
  P1_IN : Nat
  P1_OUT : Nat
  P2_OUT : Nat

/-- `uint8_t Port1_Input(void)`. -/
def Port1_Input (s : GPIO) : Nat := s.P1_IN &&& 0x12

/-- `void Port1_Output(uint8_t data)`. -/
def Port1_Output (s : GPIO) (data : Nat) : GPIO :=
  { s with P1_OUT := ((s.P1_OUT &&& 0xFE) ||| data) % 256 }

/-- `void Port2_Output(uint8_t data)`. -/
def Port2_Output (s : GPIO) (data : Nat) : GPIO :=
  { s with P2_OUT := data }

/-- One pass of the `while(1)` loop of `main`: read the switches and the
`switch` statement, which has no `default`. -/
def main_loop_pass (s : GPIO) : GPIO :=
  let status := Port1_Input s
  if status = 0x10 then Port1_Output (Port2_Output s 0x04) 1
  else if status = 0x02 then Port1_Output (Port2_Output s 0x01) 1
  else if status = 0x00 then Port1_Output (Port2_Output s (0x04 + 0x01)) 1
  else if status = 0x12 then Port1_Output (Port2_Output s 0) 0
  else s

/-! ## Driving one channel -/

/-- The init function of a channel, as a call. -/
def initCall : Channel → Nat → Nat → Call
  | .one, v, w => .Init v w
  | .two, v, w => .Init2 v w
  | .three, v, w => .Init3 v w

/-- The calc function of a channel, as a call. -/
def calcCall : Channel → Nat → Call
  | .one, d => .Calc d
  | .two, d => .Calc2 d
  | .three, d => .Calc3 d

/-- A caller initialising channel `c` and then feeding it the samples. -/
def driveCalls (c : Channel) (v size : Nat) (samples : List Nat) : List Call :=
  initCall c v size :: samples.map (calcCall c)

/-- Two channel states correspond: same window size, cursor and sum, the same
contents in the slots `0 .. Size-1`, the window inside the array, and the
cursor either inside the window or outside the array. -/
def LiveEq (a b : Nat × (Nat → Nat) × Nat × Nat) : Prop :=
  a.1 = b.1 ∧ a.2.2.1 = b.2.2.1 ∧ a.2.2.2 = b.2.2.2 ∧ a.1 ≤ 1024
    ∧ (∀ i, i < a.1 → a.2.1 i = b.2.1 i)
    ∧ (a.2.2.1 < a.1 ∨ 1024 ≤ a.2.2.1)

/-! ## PWM duty updates -/

/-- `void PWM_Duty3(uint16_t duty3)`. -/
def PWM_Duty3 (r : PWMRegs) (duty3 : Nat) : PWMRegs :=
  if duty3 ≥ r.CCR 0 then r
  else { r with CCR := Function.update r.CCR 3 duty3 }

/-- `void PWM_Duty4(uint16_t duty4)`. -/
def PWM_Duty4 (r : PWMRegs) (duty4 : Nat) : PWMRegs :=
  if duty4 ≥ r.CCR 0 then r
  else { r with CCR := Function.update r.CCR 4 duty4 }

/-- A call of one of the three functions of `PWM.c` modelled here. -/
inductive PWMCall where
  | Init34 (period duty3 duty4 : Nat)
  | Duty3 (duty3 : Nat)
  | Duty4 (duty4 : Nat)

/-- Performs one call on the registers. -/
def PWMCall.exec (r : PWMRegs) : PWMCall → PWMRegs
  | .Init34 p d3 d4 => PWM_Init34 r p d3 d4
  | .Duty3 d3 => PWM_Duty3 r d3
  | .Duty4 d4 => PWM_Duty4 r d4

/-- Performs a sequence of calls, first to last. -/
def runPWM (r : PWMRegs) : List PWMCall → PWMRegs
  | [] => r
  | k :: ks => runPWM (k.exec r) ks

/-! ## Lab 5: the obstacle tests and the tick handler -/

/-- The obstacle test of `SysTick_Handler`:
`uint32_t center_dist = CenterConvert(ir_center); if(center_dist < 200)`,
with `ir_center` a `uint32_t`. -/
def SysTick_obstacle_test (ir_center : Nat) : Except Fault Bool :=
  match CenterConvert (toI32 ir_center) with
  | .error e => .error e
  | .ok q => .ok (decide (toU32 q < 200))

/-- The obstacle test of `M3_Obstacle_Stop_Resume`:
`*center_mm = CenterConvert(center_raw)` in `Get_IR_Distances_mm`, with
`center_raw` a `uint32_t`, then `if(center_mm < 200)` on the `int32_t`. -/
def M3_obstacle_test (center_raw : Nat) : Except Fault Bool :=
  match CenterConvert (toI32 center_raw) with
  | .error e => .error e
  | .ok q => .ok (decide (q < 200))

/-- The module variables of `Lab5_UARTmain.c` that `SysTick_Handler` reads or
writes, port 2 output, and the variables of `LPF.c` its filter calls work
on. -/
structure SysTickVars where
  systick_counter : Nat
  time_ms : Nat
  state_timer : Nat
  systick_10ms_flag : Nat
  systick_100ms_flag : Nat
  systick_1s_flag : Nat
  P2_OUT : Nat
  reflectance_data : Nat
  new_reflectance_data : Nat
  line_detected : Nat
  ir_right : Nat
  ir_center : Nat
  ir_left : Nat
  obstacle_detected : Nat
  lpf : LPFMem

/-- The module variables as the C runtime zero-initialises them, before
`System_Init` has run. -/
def SysTickVars.zero : SysTickVars :=
  { systick_counter := 0, time_ms := 0, state_timer := 0, systick_10ms_flag := 0,
    systick_100ms_flag := 0, systick_1s_flag := 0, P2_OUT := 0, reflectance_data := 0,
    new_reflectance_data := 0, line_detected := 0, ir_right := 0, ir_center := 0,
    ir_left := 0, obstacle_detected := 0, lpf := LPFMem.zero }

/-! ## The initialisation loop -/

theorem LPF_Init_loop_eq (initial Size : Nat) :
    ∀ (fuel i : Nat) (x : Nat → Nat), Size ≤ i + fuel →
      LPF_Init_loop initial Size fuel i x
        = fun j => if i ≤ j ∧ j < Size then initial else x j := by
  intro fuel
  induction fuel with
  | zero =>
    intro i x h
    funext j
    have : ¬ (i ≤ j ∧ j < Size) := by omega
    simp [LPF_Init_loop, this]
  | succ n ih =>
    intro i x h
    funext j
    by_cases hi : i < Size
    · rw [LPF_Init_loop, if_pos hi, ih (i + 1) _ (by omega)]
      by_cases hj : j = i
      · subst hj
        simp [hi]
      · simp only [Function.update_noteq hj]
        by_cases h1 : i + 1 ≤ j ∧ j < Size
        · rw [if_pos h1, if_pos ⟨by omega, h1.2⟩]
        · rw [if_neg h1, if_neg (by omega)]
    · rw [LPF_Init_loop, if_neg hi, if_neg (by omega)]

theorem LPF_Init_fields (g : LPFMem) (v w : Nat) (h1 : 1 ≤ w) (h2 : w ≤ 1024) :
    (LPF_Init g v w).Size = w ∧ (LPF_Init g v w).I1 = w - 1
      ∧ (LPF_Init g v w).LPFSum = (w * v) % 2 ^ 32
      ∧ (LPF_Init g v w).x = fun j => if j < w then v else g.x j := by
  have hc : (if w > 1024 then 1024 else w) = w := by
    rw [if_neg (by omega)]
  refine ⟨?_, ?_, ?_, ?_⟩
  · simp only [LPF_Init, hc]
  · simp only [LPF_Init, hc, sub32]
    omega
  · simp only [LPF_Init, hc, mul32]
  · simp only [LPF_Init, hc]
    rw [LPF_Init_loop_eq v w 1024 0 g.x (by omega)]
    funext j
    simp

/-! ## One filter step -/

theorem window_length (g : LPFMem) : (window g).length = g.Size := by
  simp [window]

theorem window_getElem (g : LPFMem) (j : Nat) (h : j < (window g).length) :
    (window g)[j] = g.x (if j ≤ g.I1 then g.I1 - j else g.I1 + g.Size - j) := by
  simp [window]

theorem sum_eq_head_add_tail (l : List Nat) (h : 0 < l.length) :
    l.sum = l[0] + l.tail.sum := by
  cases l with
  | nil => simp at h
  | cons a t => simp

theorem wrap_sum_step (H T a d : Nat) (h : H = a + T) :
    sub32 (add32 (H % 2 ^ 32) d) a = (T + d) % 2 ^ 32 := by
  subst h
  simp only [sub32, add32]
  omega

theorem LPF_Calc_step (w d : Nat) (g : LPFMem) (hist : List Nat)
    (hw1 : 1 ≤ w) (hw2 : w ≤ 1024) (inv : FilterInv w g hist) :
    ∃ g1, LPF_Calc g d = .ok (g1, (hist.tail ++ [d]).sum % 2 ^ 32 / w)
      ∧ FilterInv w g1 (hist.tail ++ [d])
      ∧ g1.x = Function.update g.x g.I1 d
      ∧ g1.LPFSum = sub32 (add32 g.LPFSum d) (g.x g.I1) := by
  obtain ⟨hS, hI, hW, hL⟩ := inv
  have hlen : hist.length = w := by rw [← hW, window_length, hS]
  have hI' : g.I1 < 1024 := by omega
  have hhead : hist[0] = g.x g.I1 := by
    subst hW
    rw [window_getElem]
    simp
  have hsum : hist.sum = g.x g.I1 + hist.tail.sum := by
    rw [sum_eq_head_add_tail hist (by omega), hhead]
  have hnew : sub32 (add32 g.LPFSum d) (g.x g.I1) = (hist.tail ++ [d]).sum % 2 ^ 32 := by
    rw [hL, wrap_sum_step hist.sum hist.tail.sum (g.x g.I1) d hsum]
    simp
  refine ⟨{ g with LPFSum := sub32 (add32 g.LPFSum d) (g.x g.I1),
                   x := Function.update g.x g.I1 d,
                   I1 := if g.I1 = 0 then sub32 g.Size 1 else g.I1 - 1 }, ?_, ?_, rfl, rfl⟩
  · have hS0 : ¬ g.Size = 0 := by omega
    simp only [LPF_Calc, LPF_Calc_body, if_pos hI', if_neg hS0]
    rw [hnew, hS]
  · have hI1 : (if g.I1 = 0 then sub32 g.Size 1 else g.I1 - 1)
        = if g.I1 = 0 then w - 1 else g.I1 - 1 := by
      by_cases h0 : g.I1 = 0
      · rw [if_pos h0, if_pos h0, hS]
        simp only [sub32]
        omega
      · rw [if_neg h0, if_neg h0]
    refine ⟨hS, ?_, ?_, hnew⟩
    · show (if g.I1 = 0 then sub32 g.Size 1 else g.I1 - 1) < w
      rw [hI1]
      split <;> omega
    · apply List.ext_getElem
      · rw [window_length]
        simp only [List.length_append, List.length_tail, List.length_singleton]
        show g.Size = _
        omega
      · intro j h1 h2
        rw [window_getElem]
        show Function.update g.x g.I1 d
            (if j ≤ (if g.I1 = 0 then sub32 g.Size 1 else g.I1 - 1)
              then (if g.I1 = 0 then sub32 g.Size 1 else g.I1 - 1) - j
              else (if g.I1 = 0 then sub32 g.Size 1 else g.I1 - 1) + g.Size - j) = _
        rw [hI1, hS]
        have hjw : j < w := by
          have h3 := h2
          simp only [List.length_append, List.length_tail, List.length_singleton] at h3
          omega
        by_cases hj : j = w - 1
        · have hidx : (if j ≤ (if g.I1 = 0 then w - 1 else g.I1 - 1)
              then (if g.I1 = 0 then w - 1 else g.I1 - 1) - j
              else (if g.I1 = 0 then w - 1 else g.I1 - 1) + w - j) = g.I1 := by
            split <;> split <;> omega
          rw [hidx, Function.update_same]
          rw [List.getElem_append_right (by simp; omega)]
          simp
        · have hjt : j < hist.tail.length := by
            simp only [List.length_tail]
            omega
          rw [List.getElem_append_left hjt]
          have htl : hist.tail[j] = hist[j + 1] := by
            simp [List.getElem_tail]
          rw [htl]
          subst hW
          rw [window_getElem, hS]
          have hne : (if j ≤ (if g.I1 = 0 then w - 1 else g.I1 - 1)
              then (if g.I1 = 0 then w - 1 else g.I1 - 1) - j
              else (if g.I1 = 0 then w - 1 else g.I1 - 1) + w - j) ≠ g.I1 := by
            split <;> split <;> omega
          rw [Function.update_noteq hne]
          congr 1
          split <;> split <;> split <;> omega

/-! ## Histories -/

theorem lastN_length (w : Nat) (l : List Nat) (h : w ≤ l.length) : (lastN w l).length = w := by
  simp only [lastN, List.length_drop]
  omega

theorem lastN_of_length_eq (w : Nat) (l : List Nat) (h : l.length = w) : lastN w l = l := by
  simp [lastN, h]

theorem lastN_snoc (w s : Nat) (l : List Nat) (h1 : 1 ≤ w) (h : w ≤ l.length) :
    lastN w (l ++ [s]) = (lastN w l).tail ++ [s] := by
  simp only [lastN, List.length_append, List.length_singleton]
  have e : l.length + 1 - w = (l.length - w) + 1 := by omega
  rw [e, List.drop_append_of_le_length (by omega), List.tail_drop]

theorem lastN_shift (w d : Nat) (hist ds : List Nat) (h1 : 1 ≤ w) (hlen : hist.length = w) :
    lastN w (hist ++ d :: ds) = lastN w ((hist.tail ++ [d]) ++ ds) := by
  cases hist with
  | nil => simp at hlen; omega
  | cons a t =>
    simp only [List.length_cons] at hlen
    simp only [lastN, List.tail_cons, List.append_assoc, List.singleton_append,
      List.cons_append, List.length_cons, List.length_append]
    have e : t.length + (ds.length + 1) + 1 - w = (t.length + (ds.length + 1) - w) + 1 := by omega
    rw [e, List.drop_succ_cons]
    simp

theorem history_length (v w : Nat) (samples : List Nat) : (history v w samples).length = w := by
  apply lastN_length
  simp

theorem history_snoc (v w s : Nat) (pre : List Nat) (h1 : 1 ≤ w) :
    history v w (pre ++ [s]) = (history v w pre).tail ++ [s] := by
  simp only [history]
  rw [← List.append_assoc, lastN_snoc w s _ h1 (by simp)]

/-! ## The filter invariant along a run -/

theorem FilterInv_length {w : Nat} {g : LPFMem} {hist : List Nat} (inv : FilterInv w g hist) :
    hist.length = w := by
  obtain ⟨hS, _, hW, _⟩ := inv
  rw [← hW, window_length, hS]

theorem LPF_Init_inv (g : LPFMem) (v w : Nat) (h1 : 1 ≤ w) (h2 : w ≤ 1024) :
    FilterInv w (LPF_Init g v w) (List.replicate w v) := by
  obtain ⟨hS, hI, hL, hx⟩ := LPF_Init_fields g v w h1 h2
  refine ⟨hS, by omega, ?_, ?_⟩
  · apply List.ext_getElem
    · rw [window_length, hS]
      simp
    · intro j hj1 hj2
      rw [window_getElem, hx, hI, hS]
      have hj : j < w := by
        rw [window_length, hS] at hj1
        exact hj1
      simp only [List.getElem_replicate]
      rw [if_pos]
      split <;> omega
  · rw [hL]
    simp

theorem LPF_feed_inv (w : Nat) (h1 : 1 ≤ w) (h2 : w ≤ 1024) :
    ∀ (ds : List Nat) (g : LPFMem) (hist : List Nat), FilterInv w g hist →
      ∃ g1, LPF_feed g ds = .ok g1 ∧ FilterInv w g1 (lastN w (hist ++ ds)) := by
  intro ds
  induction ds with
  | nil =>
    intro g hist inv
    refine ⟨g, rfl, ?_⟩
    rw [List.append_nil, lastN_of_length_eq w hist (FilterInv_length inv)]
    exact inv
  | cons d ds ih =>
    intro g hist inv
    obtain ⟨g1, hc, inv1, _, _⟩ := LPF_Calc_step w d g hist h1 h2 inv
    obtain ⟨g2, hf, inv2⟩ := ih g1 _ inv1
    refine ⟨g2, ?_, ?_⟩
    · simp only [LPF_feed, hc]
      exact hf
    · rw [lastN_shift w d hist ds h1 (FilterInv_length inv)]
      exact inv2

theorem LPF_feed_history (g : LPFMem) (v w : Nat) (samples : List Nat)
    (h1 : 1 ≤ w) (h2 : w ≤ 1024) :
    ∃ g1, LPF_feed (LPF_Init g v w) samples = .ok g1
      ∧ FilterInv w g1 (history v w samples) :=
  LPF_feed_inv w h1 h2 samples _ _ (LPF_Init_inv g v w h1 h2)

/-! ## The window and the buffer hold the same samples -/

theorem sum_map_range_eq (f : Nat → Nat) (n : Nat) :
    ((List.range n).map f).sum = ∑ i in Finset.range n, f i := by
  induction n with
  | zero => simp
  | succ n ih => rw [List.sum_range_succ, Finset.sum_range_succ, ih]

theorem window_sum_eq_bufSum (g : LPFMem) (h : g.I1 < g.Size) : (window g).sum = bufSum g := by
  simp only [window, bufSum, sum_map_range_eq]
  apply Finset.sum_nbij'
    (fun j => if j ≤ g.I1 then g.I1 - j else g.I1 + g.Size - j)
    (fun j => if j ≤ g.I1 then g.I1 - j else g.I1 + g.Size - j)
  · intro a ha
    simp only [Finset.mem_range] at ha ⊢
    split <;> omega
  · intro a ha
    simp only [Finset.mem_range] at ha ⊢
    split <;> omega
  · intro a ha
    simp only [Finset.mem_range] at ha
    split <;> split <;> omega
  · intro a ha
    simp only [Finset.mem_range] at ha
    split <;> split <;> omega
  · intro a _
    rfl

theorem FilterInv_bufSum {w : Nat} {g : LPFMem} {hist : List Nat} (inv : FilterInv w g hist) :
    g.LPFSum = bufSum g % 2 ^ 32 := by
  obtain ⟨hS, hI, hW, hL⟩ := inv
  rw [hL, ← hW, window_sum_eq_bufSum g (by omega)]

theorem sum_le_length_mul (M : Nat) (l : List Nat) (h : ∀ a ∈ l, a ≤ M) :
    l.sum ≤ l.length * M := by
  induction l with
  | nil => simp
  | cons a t ih =>
    have h1 : a ≤ M := h a (by simp)
    have h2 : t.sum ≤ t.length * M := ih (fun b hb => h b (by simp [hb]))
    simp only [List.sum_cons, List.length_cons]
    nlinarith

theorem history_le (M v w : Nat) (samples : List Nat) (hv : v ≤ M)
    (hs : ∀ d ∈ samples, d ≤ M) : ∀ a ∈ history v w samples, a ≤ M := by
  intro a ha
  have hm : a ∈ List.replicate w v ++ samples := List.mem_of_mem_drop ha
  rcases List.mem_append.mp hm with h | h
  · rw [(List.mem_replicate.mp h).2]
    exact hv
  · exact hs a h

theorem history_sum_le (M v w : Nat) (samples : List Nat) (hv : v ≤ M)
    (hs : ∀ d ∈ samples, d ≤ M) : (history v w samples).sum ≤ w * M := by
  have := sum_le_length_mul M _ (history_le M v w samples hv hs)
  rwa [history_length] at this

theorem lastN_append_replicate (w k v : Nat) (hist : List Nat) (hk : w ≤ k) :
    lastN w (hist ++ List.replicate k v) = List.replicate w v := by
  simp only [lastN, List.length_append, List.length_replicate]
  have e : hist.length + k - w = hist.length + (k - w) := by omega
  rw [e, List.drop_append, List.drop_replicate]
  congr 1
  omega

/-! ## The moving-average filter (channel 1) -/

/-- C1 (as amended): after `LPF_Init(v, w)` with `1 <= w <= 1024`, the n-th
`LPF_Calc` of any sample sequence returns the sum of the last `w` elements of
(`w` copies of `v`, then the samples), reduced modulo `2 ^ 32`, divided by `w`;
this is the truncated mean whenever that sum is below `2 ^ 32`. -/
theorem LPF_Calc_returns_wrapped_mean (g : LPFMem) (v w s : Nat) (pre : List Nat)
    (h1 : 1 ≤ w) (h2 : w ≤ 1024) :
    ∃ g1 g2, LPF_feed (LPF_Init g v w) pre = .ok g1
      ∧ LPF_Calc g1 s = .ok (g2, (history v w (pre ++ [s])).sum % 2 ^ 32 / w)
      ∧ ((history v w (pre ++ [s])).sum < 2 ^ 32 →
          LPF_Calc g1 s = .ok (g2, (history v w (pre ++ [s])).sum / w)) := by
  obtain ⟨g1, hf, inv⟩ := LPF_feed_history g v w pre h1 h2
  obtain ⟨g2, hc, _, _, _⟩ := LPF_Calc_step w s g1 _ h1 h2 inv
  rw [← history_snoc v w s pre h1] at hc
  refine ⟨g1, g2, hf, hc, ?_⟩
  intro hlt
  rw [hc, Nat.mod_eq_of_lt hlt]

theorem LPF_Calc_returns_wrapped_mean_witness :
    ∃ g1 g2, LPF_feed (LPF_Init LPFMem.zero 7 4) [1, 2, 3, 4, 5] = .ok g1
      ∧ LPF_Calc g1 6 = .ok (g2, (history 7 4 ([1, 2, 3, 4, 5] ++ [6])).sum % 2 ^ 32 / 4)
      ∧ ((history 7 4 ([1, 2, 3, 4, 5] ++ [6])).sum < 2 ^ 32 →
          LPF_Calc g1 6 = .ok (g2, (history 7 4 ([1, 2, 3, 4, 5] ++ [6])).sum / 4)) :=
  LPF_Calc_returns_wrapped_mean LPFMem.zero 7 4 6 [1, 2, 3, 4, 5] (by decide) (by decide)

/-- C1 (counterexample): with window 2, seed `2^32 - 1` and one sample
`2^32 - 1`, `LPF_Calc` returns `2^31 - 1`, while the truncated mean of the last
two values is `2^32 - 1`. -/
theorem LPF_Calc_mean_counterexample :
    returned (LPF_Calc (LPF_Init LPFMem.zero 4294967295 2) 4294967295) = some 2147483647
      ∧ (history 4294967295 2 [4294967295]).sum / 2 = 4294967295
      ∧ returned (LPF_Calc (LPF_Init LPFMem.zero 4294967295 2) 4294967295)
          ≠ some ((history 4294967295 2 [4294967295]).sum / 2) := by
  decide

/-- C2 (as amended): after `LPF_Init(v, w)` with `1 <= w <= 1024` and after
every subsequent `LPF_Calc`, `LPFSum` equals the sum of the `w` values stored in
`x[0 .. w-1]` reduced modulo `2 ^ 32`; it is the exact sum whenever that sum is
below `2 ^ 32`. -/
theorem LPFSum_eq_bufSum_mod (g : LPFMem) (v w : Nat) (samples : List Nat)
    (h1 : 1 ≤ w) (h2 : w ≤ 1024) :
    ∃ g1, LPF_feed (LPF_Init g v w) samples = .ok g1
      ∧ g1.Size = w
      ∧ g1.LPFSum = bufSum g1 % 2 ^ 32
      ∧ (bufSum g1 < 2 ^ 32 → g1.LPFSum = bufSum g1) := by
  obtain ⟨g1, hf, inv⟩ := LPF_feed_history g v w samples h1 h2
  refine ⟨g1, hf, inv.1, FilterInv_bufSum inv, ?_⟩
  intro hlt
  rw [FilterInv_bufSum inv, Nat.mod_eq_of_lt hlt]

theorem LPFSum_eq_bufSum_mod_witness :
    ∃ g1, LPF_feed (LPF_Init LPFMem.zero 4294967295 3) [4294967295, 5] = .ok g1
      ∧ g1.Size = 3
      ∧ g1.LPFSum = bufSum g1 % 2 ^ 32
      ∧ (bufSum g1 < 2 ^ 32 → g1.LPFSum = bufSum g1) :=
  LPFSum_eq_bufSum_mod LPFMem.zero 4294967295 3 [4294967295, 5] (by decide) (by decide)

/-- C2 (counterexample): right after `LPF_Init(2^32 - 1, 2)` the two slots sum
to `2^33 - 2`, but `LPFSum` is `2^32 - 2`. -/
theorem LPFSum_exact_counterexample :
    (LPF_Init LPFMem.zero 4294967295 2).LPFSum = 4294967294
      ∧ bufSum (LPF_Init LPFMem.zero 4294967295 2) = 8589934590
      ∧ (LPF_Init LPFMem.zero 4294967295 2).LPFSum
          ≠ bufSum (LPF_Init LPFMem.zero 4294967295 2) := by
  decide

/-- C3: if `1 <= w <= 1024` and the seed and all samples are at most `M` with
`w * M < 2 ^ 32`, every `LPF_Calc` after `LPF_Init(v, w)` returns exactly the
integer quotient `S / w`, where `S` is the sum of the last `w` elements of (`w`
copies of `v`, then the samples fed so far); the stored sum is the one computed
by the wrapping 32-bit addition followed by the wrapping subtraction. -/
theorem LPF_Calc_exact_mean_of_bounded (g : LPFMem) (v w M s : Nat) (pre : List Nat)
    (h1 : 1 ≤ w) (h2 : w ≤ 1024) (hv : v ≤ M) (hpre : ∀ d ∈ pre, d ≤ M) (hs : s ≤ M)
    (hM : w * M < 2 ^ 32) :
    ∃ g1 g2, LPF_feed (LPF_Init g v w) pre = .ok g1
      ∧ LPF_Calc g1 s = .ok (g2, (history v w (pre ++ [s])).sum / w)
      ∧ g2.LPFSum = sub32 (add32 g1.LPFSum s) (g1.x g1.I1)
      ∧ g2.LPFSum = (history v w (pre ++ [s])).sum := by
  obtain ⟨g1, hf, inv⟩ := LPF_feed_history g v w pre h1 h2
  obtain ⟨g2, hc, inv2, _, hL⟩ := LPF_Calc_step w s g1 _ h1 h2 inv
  rw [← history_snoc v w s pre h1] at hc inv2
  have hall : ∀ d ∈ pre ++ [s], d ≤ M := by
    intro d hd
    rcases List.mem_append.mp hd with h | h
    · exact hpre d h
    · rw [List.mem_singleton.mp h]
      exact hs
  have hlt : (history v w (pre ++ [s])).sum < 2 ^ 32 :=
    lt_of_le_of_lt (history_sum_le M v w _ hv hall) hM
  rw [Nat.mod_eq_of_lt hlt] at hc
  refine ⟨g1, g2, hf, hc, hL, ?_⟩
  rw [inv2.2.2.2, Nat.mod_eq_of_lt hlt]

theorem LPF_Calc_exact_mean_of_bounded_witness :
    2 ^ 32 ≤ (LPF_Init LPFMem.zero 4294967295 1).LPFSum + 4294967295
    ∧ ∃ g1 g2, LPF_feed (LPF_Init LPFMem.zero 4294967295 1) [] = .ok g1
      ∧ LPF_Calc g1 4294967295 = .ok (g2, (history 4294967295 1 ([] ++ [4294967295])).sum / 1)
      ∧ g2.LPFSum = sub32 (add32 g1.LPFSum 4294967295) (g1.x g1.I1)
      ∧ g2.LPFSum = (history 4294967295 1 ([] ++ [4294967295])).sum :=
  ⟨by decide,
   LPF_Calc_exact_mean_of_bounded LPFMem.zero 4294967295 1 4294967295 4294967295 []
    (by decide) (by decide) (by decide) (by simp) (by decide) (by decide)⟩

/-- C4 (as amended): for `1 <= w <= 1024`, the first `LPF_Calc(s)` after
`LPF_Init(v, w)` returns `(((w-1)*v + s) mod 2^32) / w`, which is the integer
quotient `((w-1)*v + s) / w` whenever `(w-1)*v + s < 2^32`, and leaves
`x[0 .. w-1]` holding `w-1` copies of `v` followed by `s`. -/
theorem LPF_first_Calc (g : LPFMem) (v s w : Nat) (h1 : 1 ≤ w) (h2 : w ≤ 1024) :
    ∃ g1, LPF_Calc (LPF_Init g v w) s = .ok (g1, ((w - 1) * v + s) % 2 ^ 32 / w)
      ∧ bufList g1 = List.replicate (w - 1) v ++ [s]
      ∧ ((w - 1) * v + s < 2 ^ 32 →
          LPF_Calc (LPF_Init g v w) s = .ok (g1, ((w - 1) * v + s) / w)) := by
  obtain ⟨hS, hI, _, hx⟩ := LPF_Init_fields g v w h1 h2
  obtain ⟨g1, hc, inv1, hx1, _⟩ :=
    LPF_Calc_step w s (LPF_Init g v w) _ h1 h2 (LPF_Init_inv g v w h1 h2)
  have hsum : ((List.replicate w v).tail ++ [s]).sum = (w - 1) * v + s := by
    simp
  rw [hsum] at hc
  refine ⟨g1, hc, ?_, ?_⟩
  · apply List.ext_getElem
    · simp only [bufList, List.length_map, List.length_range, List.length_append,
        List.length_replicate, List.length_singleton]
      rw [inv1.1]
      omega
    · intro j hj1 hj2
      have hj : j < w := by
        simp only [bufList, List.length_map, List.length_range] at hj1
        rw [inv1.1] at hj1
        exact hj1
      simp only [bufList, List.getElem_map, List.getElem_range]
      rw [hx1, hx, hI]
      by_cases hjw : j = w - 1
      · subst hjw
        rw [Function.update_same, List.getElem_append_right (by simp)]
        simp
      · rw [Function.update_noteq hjw, List.getElem_append_left (by simp; omega)]
        simp [hj]
  · intro hlt
    rw [hc, Nat.mod_eq_of_lt hlt]

theorem LPF_first_Calc_witness :
    ∃ g1, LPF_Calc (LPF_Init LPFMem.zero 1658 4) 1758
        = .ok (g1, ((4 - 1) * 1658 + 1758) % 2 ^ 32 / 4)
      ∧ bufList g1 = List.replicate (4 - 1) 1658 ++ [1758]
      ∧ ((4 - 1) * 1658 + 1758 < 2 ^ 32 →
          LPF_Calc (LPF_Init LPFMem.zero 1658 4) 1758
            = .ok (g1, ((4 - 1) * 1658 + 1758) / 4)) :=
  LPF_first_Calc LPFMem.zero 1658 1758 4 (by decide) (by decide)

/-- C4 (counterexample): with `w = 2` and `v = s = 2^32 - 1` the first
`LPF_Calc` returns `2^31 - 1`, not `((w-1)*v + s) / w = 2^32 - 1`. -/
theorem LPF_first_Calc_counterexample :
    returned (LPF_Calc (LPF_Init LPFMem.zero 4294967295 2) 4294967295) = some 2147483647
      ∧ ((2 - 1) * 4294967295 + 4294967295) / 2 = 4294967295 := by
  decide

theorem Reachable_inv (w : Nat) (g : LPFMem) (h1 : 1 ≤ w) (h2 : w ≤ 1024)
    (hr : Reachable w g) : ∃ hist, FilterInv w g hist := by
  obtain ⟨g0, v0, pre, hf⟩ := hr
  obtain ⟨g1, hf1, inv⟩ := LPF_feed_history g0 v0 w pre h1 h2
  rw [hf] at hf1
  injection hf1 with e
  subst e
  exact ⟨_, inv⟩

/-- C5 (as amended): for `1 <= w <= 1024` and every state reachable from
`LPF_Init(_, w)`, if `LPF_Calc(v)` is called `k >= w` times in a row, the k-th
call returns `(w*v mod 2^32) / w`; this is exactly `v` whenever
`w * v < 2^32`. -/
theorem LPF_Calc_constant_input (g : LPFMem) (w v k : Nat) (h1 : 1 ≤ w) (h2 : w ≤ 1024)
    (hr : Reachable w g) (hk : w ≤ k) :
    ∃ g1 g2, LPF_feed g (List.replicate (k - 1) v) = .ok g1
      ∧ LPF_Calc g1 v = .ok (g2, (w * v) % 2 ^ 32 / w)
      ∧ (w * v < 2 ^ 32 → LPF_Calc g1 v = .ok (g2, v)) := by
  obtain ⟨hist, inv⟩ := Reachable_inv w g h1 h2 hr
  obtain ⟨g1, hf, inv1⟩ := LPF_feed_inv w h1 h2 (List.replicate (k - 1) v) g hist inv
  obtain ⟨g2, hc, _, _, _⟩ := LPF_Calc_step w v g1 _ h1 h2 inv1
  have hlen : w ≤ (hist ++ List.replicate (k - 1) v).length := by
    rw [List.length_append, FilterInv_length inv]
    omega
  have hh : (lastN w (hist ++ List.replicate (k - 1) v)).tail ++ [v] = List.replicate w v := by
    rw [← lastN_snoc w v _ h1 hlen, List.append_assoc]
    have e : List.replicate (k - 1) v ++ [v] = List.replicate k v := by
      have hk1 : k = (k - 1) + 1 := by omega
      conv => rhs; rw [hk1, List.replicate_succ']
    rw [e, lastN_append_replicate w k v hist hk]
  rw [hh] at hc
  have hs : (List.replicate w v).sum = w * v := by simp
  rw [hs] at hc
  refine ⟨g1, g2, hf, hc, ?_⟩
  intro hlt
  rw [hc, Nat.mod_eq_of_lt hlt, Nat.mul_div_cancel_left v (by omega)]

theorem LPF_Calc_constant_input_witness :
    ∃ g1 g2, LPF_feed (LPF_Init LPFMem.zero 0 2) (List.replicate (3 - 1) 9) = .ok g1
      ∧ LPF_Calc g1 9 = .ok (g2, (2 * 9) % 2 ^ 32 / 2)
      ∧ (2 * 9 < 2 ^ 32 → LPF_Calc g1 9 = .ok (g2, 9)) :=
  LPF_Calc_constant_input (LPF_Init LPFMem.zero 0 2) 2 9 3 (by decide) (by decide)
    ⟨LPFMem.zero, 0, [], rfl⟩ (by decide)

/-- C5 (counterexample): from the state after `LPF_Init(0, 2)`, two calls
`LPF_Calc(2^32 - 1)` in a row make the second call return `2^31 - 1`, not
`2^32 - 1`. -/
theorem LPF_Calc_constant_counterexample :
    returned
      (match LPF_feed (LPF_Init LPFMem.zero 0 2) [4294967295] with
       | .ok g1 => LPF_Calc g1 4294967295
       | .error e => .error e) = some 2147483647 := by
  decide


/-! ## IR distance conversion -/

theorem toI32_toU32 (z : Int) (h1 : -2147483648 ≤ z) (h2 : z ≤ 2147483647) :
    toI32 (toU32 z) = z := by
  simp only [toI32, toU32]
  split <;> omega

theorem toI32_small (n : Nat) (h : n < 2147483648) : toI32 n = (n : Int) := by
  simp only [toI32]
  split <;> omega

theorem tdiv_abs_le (a d : Int) : (Int.tdiv a d).natAbs ≤ a.natAbs := by
  rw [Int.natAbs_tdiv]
  exact Nat.div_le_self _ _

theorem tdiv_pos_eq (a d : Nat) : Int.tdiv (a : Int) (d : Int) = ((a / d : Nat) : Int) :=
  (Int.ofNat_tdiv a d).symm

theorem LeftConvert_eq (n : Int) (h0 : n ≠ 2630) (hlo : -2147483648 ≤ n - 2630)
    (hhi : n ≤ 2147483647) : LeftConvert n = .ok (Int.tdiv 100000 (n - 2630)) := by
  have hb := tdiv_abs_le 100000 (n - 2630)
  have hne : ¬ (n - 2630 = 0) := by omega
  have hov : ¬ (n - 2630 < -2147483648 ∨ 2147483647 < n - 2630) := by omega
  simp only [LeftConvert, if_neg hov, if_neg hne]
  rw [toI32_toU32 _ (by omega) (by omega)]

theorem CenterConvert_eq (n : Int) (h0 : n ≠ 1558) (hlo : -2147483648 ≤ n - 1558)
    (hhi : n ≤ 2147483647) : CenterConvert n = .ok (Int.tdiv 836100 (n - 1558)) := by
  have hne : ¬ (n - 1558 = 0) := by omega
  have hov : ¬ (n - 1558 < -2147483648 ∨ 2147483647 < n - 1558) := by omega
  simp only [CenterConvert, if_neg hov, if_neg hne]

theorem RightConvert_eq (n : Nat) (h0 : 2390 < n) (hhi : n < 4294967296) :
    RightConvert n = .ok (((100000 / (n - 2390) : Nat) : Int)) := by
  have hd : sub32 n 2390 = n - 2390 := by
    simp only [sub32]
    omega
  have hne : ¬ (n - 2390 = 0) := by omega
  have hq : 100000 / (n - 2390) ≤ 100000 := Nat.div_le_self _ _
  simp only [RightConvert, hd, if_neg hne]
  rw [toI32_small _ (by omega)]

theorem tdiv_antitone (a : Nat) (r1 r2 off : Int) (h1 : off < r1) (h2 : r1 < r2) :
    Int.tdiv (a : Int) (r2 - off) ≤ Int.tdiv (a : Int) (r1 - off) := by
  obtain ⟨d1, hd1⟩ := Int.eq_ofNat_of_zero_le (show (0 : Int) ≤ r1 - off by omega)
  obtain ⟨d2, hd2⟩ := Int.eq_ofNat_of_zero_le (show (0 : Int) ≤ r2 - off by omega)
  rw [hd1, hd2, tdiv_pos_eq, tdiv_pos_eq]
  have hle : d1 ≤ d2 := by omega
  have hpos : 0 < d1 := by omega
  exact_mod_cast Nat.div_le_div_left hle hpos

/-! ## The center channel example -/

theorem LPF_Init2_loop_eq (initial Size2 : Nat) :
    ∀ (fuel i : Nat) (x2 : Nat → Nat), Size2 ≤ i + fuel →
      LPF_Init2_loop initial Size2 fuel i x2
        = fun j => if i ≤ j ∧ j < Size2 then initial else x2 j := by
  intro fuel
  induction fuel with
  | zero =>
    intro i x2 h
    funext j
    have : ¬ (i ≤ j ∧ j < Size2) := by omega
    simp [LPF_Init2_loop, this]
  | succ n ih =>
    intro i x2 h
    funext j
    by_cases hi : i < Size2
    · rw [LPF_Init2_loop, if_pos hi, ih (i + 1) _ (by omega)]
      by_cases hj : j = i
      · subst hj
        simp [hi]
      · simp only [Function.update_noteq hj]
        by_cases h1 : i + 1 ≤ j ∧ j < Size2
        · rw [if_pos h1, if_pos ⟨by omega, h1.2⟩]
        · rw [if_neg h1, if_neg (by omega)]
    · rw [LPF_Init2_loop, if_neg hi, if_neg (by omega)]

theorem LPF_Init2_fields (g : LPFMem) (v w : Nat) (h1 : 1 ≤ w) (h2 : w ≤ 1024) :
    (LPF_Init2 g v w).Size2 = w ∧ (LPF_Init2 g v w).I2 = w - 1
      ∧ (LPF_Init2 g v w).LPFSum2 = (w * v) % 2 ^ 32
      ∧ (LPF_Init2 g v w).x2 = fun j => if j < w then v else g.x2 j := by
  have hc : (if w > 1024 then 1024 else w) = w := by
    rw [if_neg (by omega)]
  refine ⟨?_, ?_, ?_, ?_⟩
  · simp only [LPF_Init2, hc]
  · simp only [LPF_Init2, hc, sub32]
    omega
  · simp only [LPF_Init2, hc, mul32]
  · simp only [LPF_Init2, hc]
    rw [LPF_Init2_loop_eq v w 1024 0 g.x2 (by omega)]
    funext j
    simp

theorem LPF_Calc2_fields (g : LPFMem) (d : Nat) (hI : g.I2 < 1024) (hS : g.Size2 ≠ 0) :
    ∃ g1, LPF_Calc2 g d = .ok (g1, sub32 (add32 g.LPFSum2 d) (g.x2 g.I2) / g.Size2)
      ∧ g1.Size2 = g.Size2
      ∧ g1.LPFSum2 = sub32 (add32 g.LPFSum2 d) (g.x2 g.I2)
      ∧ g1.x2 = Function.update g.x2 g.I2 d
      ∧ g1.I2 = (if g.I2 = 0 then sub32 g.Size2 1 else g.I2 - 1) := by
  refine ⟨{ g with LPFSum2 := sub32 (add32 g.LPFSum2 d) (g.x2 g.I2),
                   x2 := Function.update g.x2 g.I2 d,
                   I2 := if g.I2 = 0 then sub32 g.Size2 1 else g.I2 - 1 }, ?_, rfl, rfl, rfl, rfl⟩
  simp only [LPF_Calc2, LPF_Calc2_body, if_pos hI, if_neg hS]

/-- C6: on the center channel, from any prior state, `LPF_Init2(1658, 4)`
followed by `LPF_Calc2(1658)` returns 1658, the following `LPF_Calc2(1758)`
returns 1683 (which is `(3*1658 + 1758)/4`), and `CenterConvert(1683)` returns
6688 (which is `836100/125`). -/
theorem center_channel_example (g : LPFMem) :
    ∃ g1 g2, LPF_Calc2 (LPF_Init2 g 1658 4) 1658 = .ok (g1, 1658)
      ∧ LPF_Calc2 g1 1758 = .ok (g2, 1683)
      ∧ CenterConvert 1683 = .ok 6688
      ∧ (3 * 1658 + 1758) / 4 = 1683 ∧ 836100 / (1683 - 1558) = 6688 := by
  obtain ⟨hS, hI, hL, hx⟩ := LPF_Init2_fields g 1658 4 (by decide) (by decide)
  obtain ⟨g1, e1, hS1, hL1, hx1, hI1⟩ :=
    LPF_Calc2_fields (LPF_Init2 g 1658 4) 1658 (by rw [hI]; decide) (by rw [hS]; decide)
  simp only [hS, hI, hL, hx] at e1 hL1 hI1 hS1 hx1
  have a1 : sub32 (add32 (4 * 1658 % 2 ^ 32) 1658)
      ((fun j => if j < 4 then 1658 else g.x2 j) (4 - 1)) = 6632 := by
    simp [sub32, add32]
  simp only [a1] at e1 hL1
  have b1 : (if 4 - 1 = 0 then sub32 4 1 else 4 - 1 - 1) = 2 := by decide
  rw [b1] at hI1
  obtain ⟨g2, e2, _⟩ :=
    LPF_Calc2_fields g1 1758 (by rw [hI1]; decide) (by rw [hS1]; decide)
  simp only [hS1, hL1, hI1, hx1] at e2
  have a2 : sub32 (add32 6632 1758)
      (Function.update (fun j => if j < 4 then 1658 else g.x2 j) (4 - 1) 1658 2) = 6732 := by
    simp [sub32, add32, Function.update]
  rw [a2] at e2
  exact ⟨g1, g2, e1, e2, rfl, rfl, rfl⟩

/-- C8: for `LeftConvert` (offset 2630), `CenterConvert` (offset 1558) and
`RightConvert` (offset 2390), and readings `r1 < r2` in the range of the
argument type that are both strictly above the offset, both conversions return
a value and `convert(r1) >= convert(r2)`. -/
theorem convert_antitone_above_offset :
    (∀ r1 r2 : Int, 2630 < r1 → r1 < r2 → r2 ≤ 2147483647 →
        ∃ a b, LeftConvert r1 = .ok a ∧ LeftConvert r2 = .ok b ∧ b ≤ a)
    ∧ (∀ r1 r2 : Int, 1558 < r1 → r1 < r2 → r2 ≤ 2147483647 →
        ∃ a b, CenterConvert r1 = .ok a ∧ CenterConvert r2 = .ok b ∧ b ≤ a)
    ∧ (∀ r1 r2 : Nat, 2390 < r1 → r1 < r2 → r2 ≤ 4294967295 →
        ∃ a b, RightConvert r1 = .ok a ∧ RightConvert r2 = .ok b ∧ b ≤ a) := by
  refine ⟨?_, ?_, ?_⟩
  · intro r1 r2 h1 h2 h3
    refine ⟨_, _, LeftConvert_eq r1 (by omega) (by omega) (by omega),
      LeftConvert_eq r2 (by omega) (by omega) (by omega), ?_⟩
    exact tdiv_antitone 100000 r1 r2 2630 h1 h2
  · intro r1 r2 h1 h2 h3
    refine ⟨_, _, CenterConvert_eq r1 (by omega) (by omega) (by omega),
      CenterConvert_eq r2 (by omega) (by omega) (by omega), ?_⟩
    exact tdiv_antitone 836100 r1 r2 1558 h1 h2
  · intro r1 r2 h1 h2 h3
    refine ⟨_, _, RightConvert_eq r1 (by omega) (by omega),
      RightConvert_eq r2 (by omega) (by omega), ?_⟩
    have hle : r1 - 2390 ≤ r2 - 2390 := by omega
    have hpos : 0 < r1 - 2390 := by omega
    exact_mod_cast Nat.div_le_div_left hle hpos

theorem convert_antitone_above_offset_witness :
    (∃ a b, LeftConvert 2700 = .ok a ∧ LeftConvert 3000 = .ok b ∧ b ≤ a)
    ∧ (∃ a b, CenterConvert 1683 = .ok a ∧ CenterConvert 2147483647 = .ok b ∧ b ≤ a)
    ∧ (∃ a b, RightConvert 2391 = .ok a ∧ RightConvert 4294967295 = .ok b ∧ b ≤ a) :=
  ⟨convert_antitone_above_offset.1 2700 3000 (by decide) (by decide) (by decide),
   convert_antitone_above_offset.2.1 1683 2147483647 (by decide) (by decide) (by decide),
   convert_antitone_above_offset.2.2 2391 4294967295 (by decide) (by decide) (by decide)⟩

/-- C9 (code at the failing input): at its calibration offset each conversion
divides by zero, so `LeftConvert(2630)`, `CenterConvert(1558)` and
`RightConvert(2390)` return no value at all, in particular no error or
saturation result; the two obstacle tests that call `CenterConvert` on a
filtered reading inherit the fault at 1558. -/
theorem convert_at_offset_divides_by_zero :
    LeftConvert 2630 = .error .divideByZero
      ∧ CenterConvert 1558 = .error .divideByZero
      ∧ RightConvert 2390 = .error .divideByZero
      ∧ (∀ y, LeftConvert 2630 ≠ .ok y)
      ∧ (∀ y, CenterConvert 1558 ≠ .ok y)
      ∧ (∀ y, RightConvert 2390 ≠ .ok y)
      ∧ SysTick_obstacle_test 1558 = .error .divideByZero
      ∧ M3_obstacle_test 1558 = .error .divideByZero := by
  refine ⟨rfl, rfl, rfl, ?_, ?_, ?_, rfl, rfl⟩
  · intro y h
    have e : LeftConvert 2630 = .error .divideByZero := rfl
    rw [e] at h
    cases h
  · intro y h
    have e : CenterConvert 1558 = .error .divideByZero := rfl
    rw [e] at h
    cases h
  · intro y h
    have e : RightConvert 2390 = .error .divideByZero := rfl
    rw [e] at h
    cases h

/-- C10: for every `int32_t` reading `n` other than 2630 with `n - 2630` not
overflowing, `LeftConvert(n)` is `100000 / (n - 2630)`, and for every reading
`n` other than 1558 with `n - 1558` not overflowing, `CenterConvert(n)` is
`836100 / (n - 1558)`; the quotient `q` by the divisor `d` is truncated toward
zero (`|q| * |d| <= |a| < (|q| + 1) * |d|`, and `q` is not positive for a
negative divisor), e.g. `CenterConvert(0) = -536` where the floor is `-537`. -/
theorem convert_truncated_quotient (n : Int) (_hlo : -2147483648 ≤ n) (hhi : n ≤ 2147483647) :
    (n ≠ 2630 → -2147483648 ≤ n - 2630 →
        LeftConvert n = .ok (Int.tdiv 100000 (n - 2630)))
    ∧ (n ≠ 1558 → -2147483648 ≤ n - 1558 →
        CenterConvert n = .ok (Int.tdiv 836100 (n - 1558)))
    ∧ (∀ a d : Int, 0 ≤ a → d ≠ 0 →
        (Int.tdiv a d).natAbs * d.natAbs ≤ a.natAbs
        ∧ a.natAbs < ((Int.tdiv a d).natAbs + 1) * d.natAbs
        ∧ (d < 0 → Int.tdiv a d ≤ 0) ∧ (0 < d → 0 ≤ Int.tdiv a d))
    ∧ CenterConvert 0 = .ok (-536) ∧ Int.fdiv 836100 (0 - 1558) = -537 := by
  refine ⟨fun h0 h1 => LeftConvert_eq n h0 h1 hhi,
    fun h0 h1 => CenterConvert_eq n h0 h1 hhi, ?_, rfl, rfl⟩
  intro a d ha hd
  have hdpos : 0 < d.natAbs := Int.natAbs_pos.mpr hd
  refine ⟨?_, ?_, ?_, ?_⟩
  · rw [Int.natAbs_tdiv]
    exact Nat.div_mul_le_self a.natAbs d.natAbs
  · rw [Int.natAbs_tdiv]
    show a.natAbs < (a.natAbs / d.natAbs + 1) * d.natAbs
    rw [Nat.mul_comm]
    exact Nat.lt_mul_div_succ _ hdpos
  · intro hneg
    have h1 : 0 ≤ Int.tdiv a (-d) := Int.tdiv_nonneg ha (by omega)
    rw [Int.tdiv_neg] at h1
    omega
  · intro hpos
    exact Int.tdiv_nonneg ha (by omega)

theorem convert_truncated_quotient_witness :
    LeftConvert 0 = .ok (Int.tdiv 100000 (0 - 2630))
      ∧ CenterConvert 0 = .ok (Int.tdiv 836100 (0 - 1558))
      ∧ Int.tdiv 100000 (0 - 2630) = -38 :=
  ⟨(convert_truncated_quotient 0 (by decide) (by decide)).1 (by decide) (by decide),
   (convert_truncated_quotient 0 (by decide) (by decide)).2.1 (by decide) (by decide),
   by decide⟩

/-! ## Independence of the channels -/

theorem LPF_Calc_unfold (g : LPFMem) (d : Nat) :
    LPF_Calc g d =
      if g.I1 < 1024 then
        if g.Size = 0 then .error .divideByZero
        else .ok ({ g with LPFSum := sub32 (add32 g.LPFSum d) (g.x g.I1),
                           x := Function.update g.x g.I1 d,
                           I1 := if g.I1 = 0 then sub32 g.Size 1 else g.I1 - 1 },
                  sub32 (add32 g.LPFSum d) (g.x g.I1) / g.Size)
      else .error .indexOutOfBounds := by
  by_cases h : g.I1 < 1024
  · simp only [LPF_Calc, LPF_Calc_body, if_pos h]
  · simp only [LPF_Calc, LPF_Calc_body, if_neg h]

theorem LPF_Calc2_unfold (g : LPFMem) (d : Nat) :
    LPF_Calc2 g d =
      if g.I2 < 1024 then
        if g.Size2 = 0 then .error .divideByZero
        else .ok ({ g with LPFSum2 := sub32 (add32 g.LPFSum2 d) (g.x2 g.I2),
                           x2 := Function.update g.x2 g.I2 d,
                           I2 := if g.I2 = 0 then sub32 g.Size2 1 else g.I2 - 1 },
                  sub32 (add32 g.LPFSum2 d) (g.x2 g.I2) / g.Size2)
      else .error .indexOutOfBounds := by
  by_cases h : g.I2 < 1024
  · simp only [LPF_Calc2, LPF_Calc2_body, if_pos h]
  · simp only [LPF_Calc2, LPF_Calc2_body, if_neg h]

theorem LPF_Calc3_unfold (g : LPFMem) (d : Nat) :
    LPF_Calc3 g d =
      if g.I3 < 1024 then
        if g.Size3 = 0 then .error .divideByZero
        else .ok ({ g with LPFSum3 := sub32 (add32 g.LPFSum3 d) (g.x3 g.I3),
                           x3 := Function.update g.x3 g.I3 d,
                           I3 := if g.I3 = 0 then sub32 g.Size3 1 else g.I3 - 1 },
                  sub32 (add32 g.LPFSum3 d) (g.x3 g.I3) / g.Size3)
      else .error .indexOutOfBounds := by
  by_cases h : g.I3 < 1024
  · simp only [LPF_Calc3, LPF_Calc3_body, if_pos h]
  · simp only [LPF_Calc3, LPF_Calc3_body, if_neg h]

theorem LPF_Calc_frame (g g1 : LPFMem) (d y : Nat) (h : LPF_Calc g d = .ok (g1, y)) :
    chanState .two g1 = chanState .two g ∧ chanState .three g1 = chanState .three g := by
  rw [LPF_Calc_unfold] at h
  split at h
  · split at h
    · exact absurd h (by simp)
    · simp only [Except.ok.injEq, Prod.mk.injEq] at h
      obtain ⟨h, _⟩ := h
      subst h
      exact ⟨rfl, rfl⟩
  · exact absurd h (by simp)

theorem LPF_Calc2_frame (g g1 : LPFMem) (d y : Nat) (h : LPF_Calc2 g d = .ok (g1, y)) :
    chanState .one g1 = chanState .one g ∧ chanState .three g1 = chanState .three g := by
  rw [LPF_Calc2_unfold] at h
  split at h
  · split at h
    · exact absurd h (by simp)
    · simp only [Except.ok.injEq, Prod.mk.injEq] at h
      obtain ⟨h, _⟩ := h
      subst h
      exact ⟨rfl, rfl⟩
  · exact absurd h (by simp)

theorem LPF_Calc3_frame (g g1 : LPFMem) (d y : Nat) (h : LPF_Calc3 g d = .ok (g1, y)) :
    chanState .one g1 = chanState .one g ∧ chanState .two g1 = chanState .two g := by
  rw [LPF_Calc3_unfold] at h
  split at h
  · split at h
    · exact absurd h (by simp)
    · simp only [Except.ok.injEq, Prod.mk.injEq] at h
      obtain ⟨h, _⟩ := h
      subst h
      exact ⟨rfl, rfl⟩
  · exact absurd h (by simp)

theorem Call_exec_frame (g g1 : LPFMem) (k : Call) (out : Option Nat) (c : Channel)
    (h : k.exec g = .ok (g1, out)) (hc : k.channel ≠ c) : chanState c g1 = chanState c g := by
  cases k with
  | Init v w =>
    simp only [Call.exec, Except.ok.injEq, Prod.mk.injEq] at h
    obtain ⟨h, _⟩ := h
    subst h
    cases c <;> first | rfl | exact absurd rfl hc
  | Init2 v w =>
    simp only [Call.exec, Except.ok.injEq, Prod.mk.injEq] at h
    obtain ⟨h, _⟩ := h
    subst h
    cases c <;> first | rfl | exact absurd rfl hc
  | Init3 v w =>
    simp only [Call.exec, Except.ok.injEq, Prod.mk.injEq] at h
    obtain ⟨h, _⟩ := h
    subst h
    cases c <;> first | rfl | exact absurd rfl hc
  | Calc d =>
    simp only [Call.exec] at h
    cases hr : LPF_Calc g d with
    | error e => rw [hr] at h; exact absurd h (by simp)
    | ok r =>
      rw [hr] at h
      simp only [Except.ok.injEq, Prod.mk.injEq] at h
      obtain ⟨h, _⟩ := h
      subst h
      obtain ⟨f2, f3⟩ := LPF_Calc_frame g r.1 d r.2 hr
      cases c
      · exact absurd rfl hc
      · exact f2
      · exact f3
  | Calc2 d =>
    simp only [Call.exec] at h
    cases hr : LPF_Calc2 g d with
    | error e => rw [hr] at h; exact absurd h (by simp)
    | ok r =>
      rw [hr] at h
      simp only [Except.ok.injEq, Prod.mk.injEq] at h
      obtain ⟨h, _⟩ := h
      subst h
      obtain ⟨f1, f3⟩ := LPF_Calc2_frame g r.1 d r.2 hr
      cases c
      · exact f1
      · exact absurd rfl hc
      · exact f3
  | Calc3 d =>
    simp only [Call.exec] at h
    cases hr : LPF_Calc3 g d with
    | error e => rw [hr] at h; exact absurd h (by simp)
    | ok r =>
      rw [hr] at h
      simp only [Except.ok.injEq, Prod.mk.injEq] at h
      obtain ⟨h, _⟩ := h
      subst h
      obtain ⟨f1, f2⟩ := LPF_Calc3_frame g r.1 d r.2 hr
      cases c
      · exact f1
      · exact f2
      · exact absurd rfl hc

theorem Call_exec_local (g h g1 : LPFMem) (k : Call) (out : Option Nat) (c : Channel)
    (hk : k.channel = c) (hs : chanState c g = chanState c h)
    (he : k.exec g = .ok (g1, out)) :
    ∃ h1, k.exec h = .ok (h1, out) ∧ chanState c g1 = chanState c h1 := by
  cases k with
  | Init v w =>
    subst hk
    simp only [Call.channel, chanState, Prod.mk.injEq] at hs
    obtain ⟨_, hx, _, _⟩ := hs
    simp only [Call.exec, Except.ok.injEq, Prod.mk.injEq] at he
    obtain ⟨he, ho⟩ := he
    subst he
    subst ho
    refine ⟨LPF_Init h v w, rfl, ?_⟩
    simp only [Call.channel, chanState, LPF_Init, hx]
  | Init2 v w =>
    subst hk
    simp only [Call.channel, chanState, Prod.mk.injEq] at hs
    obtain ⟨_, hx, _, _⟩ := hs
    simp only [Call.exec, Except.ok.injEq, Prod.mk.injEq] at he
    obtain ⟨he, ho⟩ := he
    subst he
    subst ho
    refine ⟨LPF_Init2 h v w, rfl, ?_⟩
    simp only [Call.channel, chanState, LPF_Init2, hx]
  | Init3 v w =>
    subst hk
    simp only [Call.channel, chanState, Prod.mk.injEq] at hs
    obtain ⟨_, hx, _, _⟩ := hs
    simp only [Call.exec, Except.ok.injEq, Prod.mk.injEq] at he
    obtain ⟨he, ho⟩ := he
    subst he
    subst ho
    refine ⟨LPF_Init3 h v w, rfl, ?_⟩
    simp only [Call.channel, chanState, LPF_Init3, hx]
  | Calc d =>
    subst hk
    simp only [Call.channel, chanState, Prod.mk.injEq] at hs
    obtain ⟨hS, hx, hI, hL⟩ := hs
    simp only [Call.exec, LPF_Calc_unfold] at he ⊢
    rw [← hS, ← hx, ← hI, ← hL]
    by_cases c1 : g.I1 < 1024
    · by_cases c2 : g.Size = 0
      · simp [c1, c2] at he
      · simp only [if_pos c1, if_neg c2, Except.ok.injEq, Prod.mk.injEq] at he ⊢
        obtain ⟨he, ho⟩ := he
        subst he
        exact ⟨_, ⟨rfl, ho⟩, by simp only [Call.channel, chanState]⟩
    · simp [c1] at he
  | Calc2 d =>
    subst hk
    simp only [Call.channel, chanState, Prod.mk.injEq] at hs
    obtain ⟨hS, hx, hI, hL⟩ := hs
    simp only [Call.exec, LPF_Calc2_unfold] at he ⊢
    rw [← hS, ← hx, ← hI, ← hL]
    by_cases c1 : g.I2 < 1024
    · by_cases c2 : g.Size2 = 0
      · simp [c1, c2] at he
      · simp only [if_pos c1, if_neg c2, Except.ok.injEq, Prod.mk.injEq] at he ⊢
        obtain ⟨he, ho⟩ := he
        subst he
        exact ⟨_, ⟨rfl, ho⟩, by simp only [Call.channel, chanState]⟩
    · simp [c1] at he
  | Calc3 d =>
    subst hk
    simp only [Call.channel, chanState, Prod.mk.injEq] at hs
    obtain ⟨hS, hx, hI, hL⟩ := hs
    simp only [Call.exec, LPF_Calc3_unfold] at he ⊢
    rw [← hS, ← hx, ← hI, ← hL]
    by_cases c1 : g.I3 < 1024
    · by_cases c2 : g.Size3 = 0
      · simp [c1, c2] at he
      · simp only [if_pos c1, if_neg c2, Except.ok.injEq, Prod.mk.injEq] at he ⊢
        obtain ⟨he, ho⟩ := he
        subst he
        exact ⟨_, ⟨rfl, ho⟩, by simp only [Call.channel, chanState]⟩
    · simp [c1] at he

theorem chanOutputs_tagged_append (c k : Channel) (out : Option Nat)
    (outs : List (Channel × Nat)) :
    chanOutputs c (tagged k out ++ outs)
      = (if k = c then (tagged k out).map Prod.snd else []) ++ chanOutputs c outs := by
  cases out with
  | none => simp [chanOutputs, tagged]
  | some y =>
    by_cases h : k = c
    · simp [chanOutputs, tagged, h]
    · simp [chanOutputs, tagged, h]

theorem runCalls_cons_ok (g : LPFMem) (k : Call) (ks : List Call)
    (r : LPFMem × List (Channel × Nat)) (h : runCalls g (k :: ks) = .ok r) :
    ∃ g1 out r2, k.exec g = .ok (g1, out) ∧ runCalls g1 ks = .ok r2
      ∧ r = (r2.1, tagged k.channel out ++ r2.2) := by
  simp only [runCalls] at h
  cases hk : k.exec g with
  | error e => rw [hk] at h; exact absurd h (by simp)
  | ok p =>
    rw [hk] at h
    simp only at h
    cases hr : runCalls p.1 ks with
    | error e => rw [hr] at h; exact absurd h (by simp)
    | ok r2 =>
      rw [hr] at h
      simp only [Except.ok.injEq] at h
      exact ⟨p.1, p.2, r2, rfl, hr, h.symm⟩

theorem runCalls_project (c : Channel) :
    ∀ (t : List Call) (g h : LPFMem) (r : LPFMem × List (Channel × Nat)),
      chanState c g = chanState c h → runCalls g t = .ok r →
      ∃ r1, runCalls h (callsOn c t) = .ok r1
        ∧ chanOutputs c r.2 = chanOutputs c r1.2
        ∧ chanState c r.1 = chanState c r1.1 := by
  intro t
  induction t with
  | nil =>
    intro g h r hs hr
    simp only [runCalls, Except.ok.injEq] at hr
    subst hr
    exact ⟨(h, []), rfl, rfl, hs⟩
  | cons k ks ih =>
    intro g h r hs hr
    obtain ⟨g1, out, r2, hk, hr2, hr⟩ := runCalls_cons_ok g k ks r hr
    subst hr
    by_cases hc : k.channel = c
    · obtain ⟨h1, hk1, hs1⟩ := Call_exec_local g h g1 k out c hc hs hk
      obtain ⟨r3, hr3, ho3, hs3⟩ := ih g1 h1 r2 hs1 hr2
      have hcalls : callsOn c (k :: ks) = k :: callsOn c ks := by
        simp [callsOn, hc]
      refine ⟨(r3.1, tagged k.channel out ++ r3.2), ?_, ?_, hs3⟩
      · rw [hcalls]
        simp only [runCalls, hk1, hr3]
      · simp only [chanOutputs_tagged_append, ho3]
    · have hs1 : chanState c g1 = chanState c h := by
        rw [Call_exec_frame g g1 k out c hk hc]
        exact hs
      obtain ⟨r3, hr3, ho3, hs3⟩ := ih g1 h r2 hs1 hr2
      have hcalls : callsOn c (k :: ks) = callsOn c ks := by
        simp [callsOn, hc]
      refine ⟨r3, ?_, ?_, hs3⟩
      · rw [hcalls]
        exact hr3
      · simp only [chanOutputs_tagged_append, if_neg hc, List.nil_append, ho3]

theorem runOutputs_project (c : Channel) (g h : LPFMem) (t : List Call)
    (hs : chanState c g = chanState c h) (hok : (runOutputs c g t).isSome) :
    runOutputs c g t = runOutputs c h (callsOn c t) := by
  cases hr : runCalls g t with
  | error e => simp [runOutputs, hr] at hok
  | ok r =>
    obtain ⟨r1, hr1, ho, _⟩ := runCalls_project c t g h r hs hr
    simp only [runOutputs, hr, hr1, ho]

/-- C7: operations on one filter channel never change another channel:
`LPF_Init2`, `LPF_Calc2`, `LPF_Init3` and `LPF_Calc3` leave `Size`, `x`, `I1`
and `LPFSum` unchanged, every call leaves the variables of the channels it does
not belong to unchanged, and the output sequence of a channel is the same in
any two fault-free runs that make the same calls on that channel, whatever
calls on the other two channels are interleaved. -/
theorem LPF_channels_independent :
    (∀ (g : LPFMem) (v w : Nat),
        chanState .one (LPF_Init2 g v w) = chanState .one g
        ∧ chanState .one (LPF_Init3 g v w) = chanState .one g)
    ∧ (∀ (g g1 : LPFMem) (d y : Nat),
        (LPF_Calc2 g d = .ok (g1, y) → chanState .one g1 = chanState .one g)
        ∧ (LPF_Calc3 g d = .ok (g1, y) → chanState .one g1 = chanState .one g))
    ∧ (∀ (g g1 : LPFMem) (k : Call) (out : Option Nat) (c : Channel),
        k.exec g = .ok (g1, out) → k.channel ≠ c → chanState c g1 = chanState c g)
    ∧ (∀ (c : Channel) (g h : LPFMem) (t1 t2 : List Call),
        chanState c g = chanState c h → callsOn c t1 = callsOn c t2 →
        (runOutputs c g t1).isSome → (runOutputs c h t2).isSome →
        runOutputs c g t1 = runOutputs c h t2) := by
  refine ⟨fun g v w => ⟨rfl, rfl⟩, ?_, ?_, ?_⟩
  · intro g g1 d y
    exact ⟨fun h => (LPF_Calc2_frame g g1 d y h).1, fun h => (LPF_Calc3_frame g g1 d y h).1⟩
  · intro g g1 k out c h hc
    exact Call_exec_frame g g1 k out c h hc
  · intro c g h t1 t2 hs hcalls h1 h2
    rw [runOutputs_project c g g t1 rfl h1, runOutputs_project c h g t2 hs.symm h2, hcalls]

theorem LPF_channels_independent_witness :
    runOutputs .one LPFMem.zero
        [.Init 10 2, .Init2 5 1, .Calc 20, .Calc2 7, .Calc 30]
      = runOutputs .one LPFMem.zero
        [.Init2 99 3, .Init 10 2, .Calc2 1, .Calc 20, .Init3 0 1, .Calc3 4, .Calc 30]
    ∧ runOutputs .one LPFMem.zero
        [.Init 10 2, .Init2 5 1, .Calc 20, .Calc2 7, .Calc 30] = some [15, 25] :=
  ⟨LPF_channels_independent.2.2.2 .one LPFMem.zero LPFMem.zero
      [.Init 10 2, .Init2 5 1, .Calc 20, .Calc2 7, .Calc 30]
      [.Init2 99 3, .Init 10 2, .Calc2 1, .Calc 20, .Init3 0 1, .Calc3 4, .Calc 30]
      rfl (by decide) (by decide) (by decide),
   by decide⟩

/-! ## Initialisation: clamping and the initial state -/

theorem LPF_Init_clamp (g : LPFMem) (v size : Nat) (h : 1024 < size) :
    LPF_Init g v size = LPF_Init g v 1024 := by
  have h1 : size > 1024 := h
  have h2 : ¬ (1024 > 1024) := by decide
  simp only [LPF_Init, if_pos h1, if_neg h2]

theorem LPF_Init_Size (g : LPFMem) (v size : Nat) :
    (LPF_Init g v size).Size = min size 1024 := by
  by_cases h : size > 1024
  · simp only [LPF_Init, if_pos h]
    omega
  · simp only [LPF_Init, if_neg h]
    omega

theorem Reachable_clamp (size : Nat) (g : LPFMem) (hr : Reachable size g) :
    Reachable (min size 1024) g := by
  obtain ⟨g0, v0, pre, hf⟩ := hr
  by_cases h : 1024 < size
  · rw [LPF_Init_clamp g0 v0 size h] at hf
    rw [Nat.min_eq_right (by omega)]
    exact ⟨g0, v0, pre, hf⟩
  · rw [Nat.min_eq_left (by omega)]
    exact ⟨g0, v0, pre, hf⟩

theorem Reachable_FilterInv (size : Nat) (g : LPFMem) (h1 : 1 ≤ size) (hr : Reachable size g) :
    ∃ hist, FilterInv (min size 1024) g hist :=
  Reachable_inv (min size 1024) g (by omega) (by omega) (Reachable_clamp size g hr)

theorem LPF_Calc_cursor (g : LPFMem) (d : Nat) (h1 : g.I1 < g.Size) (h2 : g.Size ≤ 1024) :
    ∃ g1, LPF_Calc g d = .ok (g1, g1.LPFSum / g1.Size)
      ∧ g1.I1 = (g.I1 + g.Size - 1) % g.Size ∧ g1.Size = g.Size
      ∧ g1.x = Function.update g.x g.I1 d
      ∧ g1.LPFSum = sub32 (add32 g.LPFSum d) (g.x g.I1) := by
  have c1 : g.I1 < 1024 := by omega
  have c2 : ¬ g.Size = 0 := by omega
  refine ⟨{ g with LPFSum := sub32 (add32 g.LPFSum d) (g.x g.I1),
                   x := Function.update g.x g.I1 d,
                   I1 := if g.I1 = 0 then sub32 g.Size 1 else g.I1 - 1 }, ?_, ?_, rfl, rfl, rfl⟩
  · rw [LPF_Calc_unfold, if_pos c1, if_neg c2]
  · show (if g.I1 = 0 then sub32 g.Size 1 else g.I1 - 1) = (g.I1 + g.Size - 1) % g.Size
    by_cases h0 : g.I1 = 0
    · rw [if_pos h0, h0, Nat.zero_add, Nat.mod_eq_of_lt (by omega)]
      simp only [sub32]
      omega
    · rw [if_neg h0]
      have e : g.I1 + g.Size - 1 = (g.I1 - 1) + g.Size := by omega
      rw [e, Nat.add_mod_right, Nat.mod_eq_of_lt (by omega)]

/-- C12 (counterexample): `LPF_Init(5, 0)` stores the window size 0. -/
theorem LPF_Init_size_zero_counterexample :
    (LPF_Init LPFMem.zero 5 0).Size = 0 ∧ ¬ (1 ≤ (LPF_Init LPFMem.zero 5 0).Size) := by
  decide

/-- C12 (as amended): for every size argument and every initial value, after
`LPF_Init(initial, size)` the stored window size is `min(size, 1024)`; so
`Size <= 1024` always, and `1 <= Size` exactly when `size >= 1`. -/
theorem LPF_Init_Size_clamped (g : LPFMem) (initial size : Nat) :
    (LPF_Init g initial size).Size = min size 1024
      ∧ (LPF_Init g initial size).Size ≤ 1024
      ∧ (1 ≤ (LPF_Init g initial size).Size ↔ 1 ≤ size) := by
  rw [LPF_Init_Size]
  refine ⟨rfl, by omega, by omega⟩

/-- C13: for every `size > 1024` and every initial value,
`LPF_Init(initial, size)` leaves the filter in exactly the state produced by
`LPF_Init(initial, 1024)`: `Size = 1024`, cursor 1023, all 1024 slots equal to
`initial`, `LPFSum = 1024*initial mod 2^32`; every later run of `LPF_Calc`
succeeds from both and returns the same values. -/
theorem LPF_Init_oversize (g : LPFMem) (initial size : Nat) (h : 1024 < size) :
    LPF_Init g initial size = LPF_Init g initial 1024
      ∧ (LPF_Init g initial size).Size = 1024
      ∧ (LPF_Init g initial size).I1 = 1023
      ∧ (∀ i, i < 1024 → (LPF_Init g initial size).x i = initial)
      ∧ (LPF_Init g initial size).LPFSum = (1024 * initial) % 2 ^ 32
      ∧ (∀ (pre : List Nat) (d : Nat), ∃ g1 g2 y,
          LPF_feed (LPF_Init g initial size) pre = .ok g1
          ∧ LPF_feed (LPF_Init g initial 1024) pre = .ok g1
          ∧ LPF_Calc g1 d = .ok (g2, y)) := by
  obtain ⟨hS, hI, hL, hx⟩ := LPF_Init_fields g initial 1024 (by decide) (by decide)
  rw [LPF_Init_clamp g initial size h]
  refine ⟨rfl, hS, hI, ?_, hL, ?_⟩
  · intro i hi
    rw [hx]
    simp only [if_pos hi]
  · intro pre d
    obtain ⟨g1, hf, inv⟩ := LPF_feed_history g initial 1024 pre (by decide) (by decide)
    obtain ⟨g2, hc, _⟩ := LPF_Calc_step 1024 d g1 _ (by decide) (by decide) inv
    exact ⟨g1, g2, _, hf, hf, hc⟩

theorem LPF_Init_oversize_witness :
    LPF_Init LPFMem.zero 7 4294967295 = LPF_Init LPFMem.zero 7 1024
      ∧ (LPF_Init LPFMem.zero 7 4294967295).Size = 1024
      ∧ (LPF_Init LPFMem.zero 7 4294967295).I1 = 1023
      ∧ (∀ i, i < 1024 → (LPF_Init LPFMem.zero 7 4294967295).x i = 7)
      ∧ (LPF_Init LPFMem.zero 7 4294967295).LPFSum = (1024 * 7) % 2 ^ 32
      ∧ (∀ (pre : List Nat) (d : Nat), ∃ g1 g2 y,
          LPF_feed (LPF_Init LPFMem.zero 7 4294967295) pre = .ok g1
          ∧ LPF_feed (LPF_Init LPFMem.zero 7 1024) pre = .ok g1
          ∧ LPF_Calc g1 d = .ok (g2, y)) :=
  LPF_Init_oversize LPFMem.zero 7 4294967295 (by decide)

/-- C14: for every `w` with `1 <= w <= 1024` and every initial value `v`,
`LPF_Init(v, w)` sets `Size = w`, `x[i] = v` for every `i < w`, the cursor
`I1 = w - 1` and `LPFSum = w*v` reduced modulo `2^32`. -/
theorem LPF_Init_sets (g : LPFMem) (v w : Nat) (h1 : 1 ≤ w) (h2 : w ≤ 1024) :
    (LPF_Init g v w).Size = w
      ∧ (∀ i, i < w → (LPF_Init g v w).x i = v)
      ∧ (LPF_Init g v w).I1 = w - 1
      ∧ (LPF_Init g v w).LPFSum = (w * v) % 2 ^ 32 := by
  obtain ⟨hS, hI, hL, hx⟩ := LPF_Init_fields g v w h1 h2
  refine ⟨hS, ?_, hI, hL⟩
  intro i hi
  rw [hx]
  simp only [if_pos hi]

theorem LPF_Init_sets_witness :
    (LPF_Init LPFMem.zero 1658 256).Size = 256
      ∧ (∀ i, i < 256 → (LPF_Init LPFMem.zero 1658 256).x i = 1658)
      ∧ (LPF_Init LPFMem.zero 1658 256).I1 = 256 - 1
      ∧ (LPF_Init LPFMem.zero 1658 256).LPFSum = (256 * 1658) % 2 ^ 32 :=
  LPF_Init_sets LPFMem.zero 1658 256 (by decide) (by decide)

/-- C15: in every state reachable from `LPF_Init(v, size)` with `size >= 1` by
any number of `LPF_Calc` calls, `LPF_Calc` cannot fail: the index `I1` is below
`Size <= 1024`, the divisor `Size` is non-zero, and the call returns. -/
theorem LPF_Calc_cannot_fail (size : Nat) (g : LPFMem) (h1 : 1 ≤ size)
    (hr : Reachable size g) :
    g.I1 < g.Size ∧ g.Size ≤ 1024 ∧ g.Size ≠ 0
      ∧ ∀ d, ∃ g1 y, LPF_Calc g d = .ok (g1, y) := by
  obtain ⟨hist, inv⟩ := Reachable_FilterInv size g h1 hr
  have hS := inv.1
  have hI := inv.2.1
  refine ⟨by omega, by omega, by omega, ?_⟩
  intro d
  obtain ⟨g1, hc, _⟩ := LPF_Calc_step (min size 1024) d g hist (by omega) (by omega) inv
  exact ⟨g1, _, hc⟩

theorem LPF_Calc_cannot_fail_witness :
    (LPF_Init LPFMem.zero 3 5000).I1 < (LPF_Init LPFMem.zero 3 5000).Size
      ∧ (LPF_Init LPFMem.zero 3 5000).Size ≤ 1024
      ∧ (LPF_Init LPFMem.zero 3 5000).Size ≠ 0
      ∧ ∀ d, ∃ g1 y, LPF_Calc (LPF_Init LPFMem.zero 3 5000) d = .ok (g1, y) :=
  LPF_Calc_cannot_fail 5000 (LPF_Init LPFMem.zero 3 5000) (by decide)
    ⟨LPFMem.zero, 3, [], rfl⟩

/-- C19: after `LPF_Init(v, size)` with `size >= 1` and after every
`LPF_Calc`, `0 <= I1 < Size`; each `LPF_Calc` replaces `I1` by
`(I1 + Size - 1) mod Size` and never changes `Size`. -/
theorem LPF_cursor_invariant (size : Nat) (g : LPFMem) (h1 : 1 ≤ size)
    (hr : Reachable size g) :
    0 ≤ g.I1 ∧ g.I1 < g.Size
      ∧ ∀ d, ∃ g1 y, LPF_Calc g d = .ok (g1, y)
          ∧ g1.I1 = (g.I1 + g.Size - 1) % g.Size ∧ g1.Size = g.Size
          ∧ g1.I1 < g1.Size := by
  obtain ⟨hist, inv⟩ := Reachable_FilterInv size g h1 hr
  have hS := inv.1
  have hI := inv.2.1
  refine ⟨Nat.zero_le _, by omega, ?_⟩
  intro d
  obtain ⟨g1, hc, hI1, hS1, _⟩ := LPF_Calc_cursor g d (by omega) (by omega)
  refine ⟨g1, _, hc, hI1, hS1, ?_⟩
  rw [hI1, hS1]
  exact Nat.mod_lt _ (by omega)

theorem LPF_cursor_invariant_witness :
    0 ≤ (LPF_Init LPFMem.zero 3 4).I1
      ∧ (LPF_Init LPFMem.zero 3 4).I1 < (LPF_Init LPFMem.zero 3 4).Size
      ∧ ∀ d, ∃ g1 y, LPF_Calc (LPF_Init LPFMem.zero 3 4) d = .ok (g1, y)
          ∧ g1.I1 = ((LPF_Init LPFMem.zero 3 4).I1 + (LPF_Init LPFMem.zero 3 4).Size - 1)
              % (LPF_Init LPFMem.zero 3 4).Size
          ∧ g1.Size = (LPF_Init LPFMem.zero 3 4).Size
          ∧ g1.I1 < g1.Size :=
  LPF_cursor_invariant 4 (LPF_Init LPFMem.zero 3 4) (by decide) ⟨LPFMem.zero, 3, [], rfl⟩

/-! ## The right channel -/

/-- C11 (counterexample): `RightConvert(2389)` returns 0, while the truncated
integer quotient `100000 / (2389 - 2390)` is `-100000`, the value
`LeftConvert(2629)` returns. -/
theorem RightConvert_below_offset_counterexample :
    RightConvert 2389 = .ok 0
      ∧ Int.tdiv 100000 (2389 - 2390) = -100000
      ∧ LeftConvert 2629 = .ok (-100000) :=
  ⟨rfl, rfl, rfl⟩

/-- C11 (as amended): for every 32-bit reading `nr > 2390`, `RightConvert`
returns the integer quotient `100000 / (nr - 2390)` truncated toward zero, as
the other two channels do; for every reading `nr < 2390` the subtraction wraps
in `uint32_t` arithmetic and the function returns
`100000 / (nr + 2^32 - 2390)`, which is 0. -/
theorem RightConvert_quotient (nr : Nat) (_h0 : nr ≠ 2390) (hhi : nr < 2 ^ 32) :
    (2390 < nr → RightConvert nr = .ok (Int.tdiv 100000 ((nr : Int) - 2390)))
    ∧ (nr < 2390 → RightConvert nr = .ok (((100000 / (nr + 2 ^ 32 - 2390) : Nat) : Int))
        ∧ RightConvert nr = .ok 0) := by
  refine ⟨?_, ?_⟩
  · intro h
    rw [RightConvert_eq nr h (by omega)]
    have e : ((nr : Int) - 2390) = ((nr - 2390 : Nat) : Int) := by omega
    rw [e]
    exact congrArg Except.ok (tdiv_pos_eq 100000 (nr - 2390)).symm
  · intro h
    have hd : sub32 nr 2390 = nr + 2 ^ 32 - 2390 := by
      simp only [sub32]
      omega
    have hne : ¬ (nr + 2 ^ 32 - 2390 = 0) := by omega
    have hq : 100000 / (nr + 2 ^ 32 - 2390) = 0 := Nat.div_eq_of_lt (by omega)
    have e1 : RightConvert nr = .ok (((100000 / (nr + 2 ^ 32 - 2390) : Nat) : Int)) := by
      simp only [RightConvert, hd, if_neg hne]
      rw [toI32_small _ (by omega)]
    refine ⟨e1, ?_⟩
    rw [e1, hq]
    rfl

theorem RightConvert_quotient_witness :
    RightConvert 2490 = .ok (Int.tdiv 100000 (((2490 : Nat) : Int) - 2390))
      ∧ RightConvert 0 = .ok 0 :=
  ⟨(RightConvert_quotient 2490 (by decide) (by decide)).1 (by decide),
   ((RightConvert_quotient 0 (by decide) (by decide)).2 (by decide)).2⟩

/-! ## PWM initialisation -/

/-- C16: `PWM_Init34(period, duty3, duty4)` called with `duty3 >= period` or
`duty4 >= period` changes no register; otherwise it sets `CCR[0] = period`,
`CCR[3] = duty3` and `CCR[4] = duty4`. -/
theorem PWM_Init34_guard (r : PWMRegs) (period duty3 duty4 : Nat) :
    (duty3 ≥ period ∨ duty4 ≥ period → PWM_Init34 r period duty3 duty4 = r)
    ∧ (duty3 < period → duty4 < period →
        (PWM_Init34 r period duty3 duty4).CCR 0 = period
        ∧ (PWM_Init34 r period duty3 duty4).CCR 3 = duty3
        ∧ (PWM_Init34 r period duty3 duty4).CCR 4 = duty4) := by
  refine ⟨?_, ?_⟩
  · intro h
    by_cases h3 : duty3 ≥ period
    · simp only [PWM_Init34, if_pos h3]
    · have h4 : duty4 ≥ period := by
        rcases h with h | h
        · exact absurd h h3
        · exact h
      simp only [PWM_Init34, if_neg h3, if_pos h4]
  · intro h3 h4
    have n3 : ¬ duty3 ≥ period := by omega
    have n4 : ¬ duty4 ≥ period := by omega
    simp only [PWM_Init34, if_neg n3, if_neg n4]
    refine ⟨?_, ?_, ?_⟩
    · simp [Function.update]
    · simp [Function.update]
    · simp [Function.update]

theorem PWM_Init34_guard_witness :
    (PWM_Init34 ⟨0, 0, 0, fun _ => 0, fun _ => 0, 0, 0⟩ 7500 7500 10).CCR 0 = 0
      ∧ (PWM_Init34 ⟨0, 0, 0, fun _ => 0, fun _ => 0, 0, 0⟩ 7500 10 20).CCR 0 = 7500
      ∧ (PWM_Init34 ⟨0, 0, 0, fun _ => 0, fun _ => 0, 0, 0⟩ 7500 10 20).CCR 3 = 10
      ∧ (PWM_Init34 ⟨0, 0, 0, fun _ => 0, fun _ => 0, 0, 0⟩ 7500 10 20).CCR 4 = 20 :=
  ⟨congrArg (fun r => r.CCR 0)
      ((PWM_Init34_guard ⟨0, 0, 0, fun _ => 0, fun _ => 0, 0, 0⟩ 7500 7500 10).1
        (Or.inl (by decide))),
   (PWM_Init34_guard ⟨0, 0, 0, fun _ => 0, fun _ => 0, 0, 0⟩ 7500 10 20).2
      (by decide) (by decide)⟩

/-! ## Lab 1: the polling loop -/

set_option maxRecDepth 100000 in
theorem status_cases : ∀ n, n < 256 →
    (n &&& 0x12 = 0x10 ∨ n &&& 0x12 = 0x02 ∨ n &&& 0x12 = 0x00 ∨ n &&& 0x12 = 0x12) := by
  decide

set_option maxRecDepth 100000 in
theorem red_led_bit : ∀ o, o < 256 →
    ((o &&& 0xFE) ||| 1) % 256 % 2 = 1 ∧ ((o &&& 0xFE) ||| 0) % 256 % 2 = 0 := by
  decide

/-- C17: one pass of the Lab 1 polling loop is a function of the P1 input
byte: with `status = IN & 0x12`, only SW1 pressed (`0x10`) writes `0x04` to
P2 OUT, only SW2 pressed (`0x02`) writes `0x01`, both pressed (`0x00`) writes
`0x05`, neither pressed (`0x12`) writes `0x00`; bit 0 of P1 OUT (the red LED) is
1 exactly when at least one switch is pressed; every input byte falls into
exactly one of the four cases. -/
theorem main_loop_pass_table (s : GPIO) (hin : s.P1_IN < 256) (hout : s.P1_OUT < 256) :
    (Port1_Input s = 0x10 ∨ Port1_Input s = 0x02 ∨ Port1_Input s = 0x00
        ∨ Port1_Input s = 0x12)
    ∧ (Port1_Input s = 0x10 → (main_loop_pass s).P2_OUT = 0x04)
    ∧ (Port1_Input s = 0x02 → (main_loop_pass s).P2_OUT = 0x01)
    ∧ (Port1_Input s = 0x00 → (main_loop_pass s).P2_OUT = 0x05)
    ∧ (Port1_Input s = 0x12 → (main_loop_pass s).P2_OUT = 0x00)
    ∧ ((main_loop_pass s).P1_OUT % 2 = 1 ↔ Port1_Input s ≠ 0x12) := by
  have hc := status_cases s.P1_IN hin
  have hb := red_led_bit s.P1_OUT hout
  refine ⟨hc, ?_, ?_, ?_, ?_, ?_⟩
  · intro h
    simp [main_loop_pass, h, Port1_Output, Port2_Output]
  · intro h
    simp [main_loop_pass, h, Port1_Output, Port2_Output]
  · intro h
    simp [main_loop_pass, h, Port1_Output, Port2_Output]
  · intro h
    simp [main_loop_pass, h, Port1_Output, Port2_Output]
  · have hc2 : Port1_Input s = 0x10 ∨ Port1_Input s = 0x02 ∨ Port1_Input s = 0x00
        ∨ Port1_Input s = 0x12 := hc
    rcases hc2 with h | h | h | h
    · have e : (main_loop_pass s).P1_OUT = ((s.P1_OUT &&& 0xFE) ||| 1) % 256 := by
        simp [main_loop_pass, h, Port1_Output, Port2_Output]
      rw [e, h]
      exact ⟨fun _ => by decide, fun _ => hb.1⟩
    · have e : (main_loop_pass s).P1_OUT = ((s.P1_OUT &&& 0xFE) ||| 1) % 256 := by
        simp [main_loop_pass, h, Port1_Output, Port2_Output]
      rw [e, h]
      exact ⟨fun _ => by decide, fun _ => hb.1⟩
    · have e : (main_loop_pass s).P1_OUT = ((s.P1_OUT &&& 0xFE) ||| 1) % 256 := by
        simp [main_loop_pass, h, Port1_Output, Port2_Output]
      rw [e, h]
      exact ⟨fun _ => by decide, fun _ => hb.1⟩
    · have e : (main_loop_pass s).P1_OUT = ((s.P1_OUT &&& 0xFE) ||| 0) % 256 := by
        simp [main_loop_pass, h, Port1_Output, Port2_Output]
      rw [e, h]
      have h0 := hb.2
      constructor
      · intro h1
        omega
      · intro h1
        exact absurd rfl h1

theorem main_loop_pass_table_witness :
    (Port1_Input ⟨0xFD, 0x12, 0x07⟩ = 0x10 → (main_loop_pass ⟨0xFD, 0x12, 0x07⟩).P2_OUT = 0x04)
      ∧ ((main_loop_pass ⟨0xFD, 0x12, 0x07⟩).P1_OUT % 2 = 1
          ↔ Port1_Input ⟨0xFD, 0x12, 0x07⟩ ≠ 0x12)
      ∧ Port1_Input ⟨0xFD, 0x12, 0x07⟩ = 0x10 :=
  ⟨(main_loop_pass_table ⟨0xFD, 0x12, 0x07⟩ (by decide) (by decide)).2.1,
   (main_loop_pass_table ⟨0xFD, 0x12, 0x07⟩ (by decide) (by decide)).2.2.2.2.2,
   by decide⟩

/-! ## FIFO order -/

theorem ring_index_lt (I w j : Nat) (hI : I < w) (hj : j < w) :
    (if j ≤ I then I - j else I + w - j) < w := by
  split <;> omega

theorem ring_index_invol (I w j : Nat) (hI : I < w) (hj : j < w) :
    (if (if j ≤ I then I - j else I + w - j) ≤ I
      then I - (if j ≤ I then I - j else I + w - j)
      else I + w - (if j ≤ I then I - j else I + w - j)) = j := by
  split <;> split <;> omega

theorem window_perm_bufList (g : LPFMem) (h : g.I1 < g.Size) :
    (window g).Perm (bufList g) := by
  have hw : window g
      = ((List.range g.Size).map
          (fun j => if j ≤ g.I1 then g.I1 - j else g.I1 + g.Size - j)).map g.x := by
    simp [window]
  rw [hw, bufList]
  apply List.Perm.map
  have hnd : ((List.range g.Size).map
      (fun j => if j ≤ g.I1 then g.I1 - j else g.I1 + g.Size - j)).Nodup := by
    apply List.Nodup.map_on
    · intro a ha b hb hab
      have ha1 : a < g.Size := List.mem_range.mp ha
      have hb1 : b < g.Size := List.mem_range.mp hb
      have ea := ring_index_invol g.I1 g.Size a h ha1
      have eb := ring_index_invol g.I1 g.Size b h hb1
      simp only at hab
      rw [hab] at ea
      rw [← ea, eb]
    · exact List.nodup_range g.Size
  apply (List.perm_ext_iff_of_nodup hnd (List.nodup_range g.Size)).mpr
  intro a
  constructor
  · intro ha
    obtain ⟨j, hj, e⟩ := List.mem_map.mp ha
    have hj1 : j < g.Size := List.mem_range.mp hj
    rw [← e]
    exact List.mem_range.mpr (ring_index_lt g.I1 g.Size j h hj1)
  · intro ha
    have ha1 : a < g.Size := List.mem_range.mp ha
    apply List.mem_map.mpr
    exact ⟨_, List.mem_range.mpr (ring_index_lt g.I1 g.Size a h ha1),
      ring_index_invol g.I1 g.Size a h ha1⟩

theorem history_head (v w : Nat) (samples : List Nat) (h1 : 1 ≤ w)
    (h0 : 0 < (history v w samples).length) :
    (history v w samples)[0]
      = if w ≤ samples.length then samples.getD (samples.length - w) v else v := by
  simp only [history, lastN, List.getElem_drop, List.length_append, List.length_replicate]
  by_cases hn : w ≤ samples.length
  · rw [if_pos hn]
    have hlt : samples.length - w < samples.length := by omega
    rw [List.getD_eq_getElem _ _ hlt, List.getElem_append_right (by simpa using hn)]
    simp
  · rw [if_neg hn]
    rw [List.getElem_append_left (by simp; omega)]
    simp

/-- C18: after `LPF_Init(v, w)` with `1 <= w <= 1024` and `n` calls
`LPF_Calc(s_1..s_n)`, the slots `x[0..w-1]` hold exactly the last `w` elements
of (`w` copies of `v` followed by `s_1..s_n`), in ring order from the cursor;
the slot at the cursor `I1` holds the oldest of them (`s_(n-w+1)` when
`n >= w`, otherwise `v`), and the next `LPF_Calc` overwrites that slot and no
other. -/
theorem LPF_fifo_order (g : LPFMem) (v w : Nat) (samples : List Nat)
    (h1 : 1 ≤ w) (h2 : w ≤ 1024) :
    ∃ g1, LPF_feed (LPF_Init g v w) samples = .ok g1
      ∧ (bufList g1).Perm (history v w samples)
      ∧ window g1 = history v w samples
      ∧ g1.I1 < w
      ∧ g1.x g1.I1
          = (if w ≤ samples.length then samples.getD (samples.length - w) v else v)
      ∧ ∀ d, ∃ g2 y, LPF_Calc g1 d = .ok (g2, y)
          ∧ g2.x = Function.update g1.x g1.I1 d := by
  obtain ⟨g1, hf, inv⟩ := LPF_feed_history g v w samples h1 h2
  obtain ⟨hS, hI, hW, hL⟩ := inv
  have hperm : (bufList g1).Perm (history v w samples) := by
    rw [← hW]
    exact (window_perm_bufList g1 (by omega)).symm
  have hlen : 0 < (history v w samples).length := by
    rw [history_length]
    omega
  have hlenw : 0 < (window g1).length := by
    rw [hW]
    exact hlen
  have hhead : g1.x g1.I1 = (history v w samples)[0] := by
    have e := window_getElem g1 0 hlenw
    simp only [Nat.zero_le, if_true, Nat.sub_zero] at e
    rw [← e]
    simp only [hW]
  refine ⟨g1, hf, hperm, hW, hI, ?_, ?_⟩
  · rw [hhead, history_head v w samples h1 hlen]
  · intro d
    obtain ⟨g2, hc, _, hx, _⟩ := LPF_Calc_step w d g1 _ h1 h2 ⟨hS, hI, hW, hL⟩
    exact ⟨g2, _, hc, hx⟩

theorem LPF_fifo_order_witness :
    ∃ g1, LPF_feed (LPF_Init LPFMem.zero 9 3) [1, 2, 3, 4] = .ok g1
      ∧ (bufList g1).Perm (history 9 3 [1, 2, 3, 4])
      ∧ window g1 = history 9 3 [1, 2, 3, 4]
      ∧ g1.I1 < 3
      ∧ g1.x g1.I1
          = (if 3 ≤ [1, 2, 3, 4].length then [1, 2, 3, 4].getD ([1, 2, 3, 4].length - 3) 9
              else 9)
      ∧ ∀ d, ∃ g2 y, LPF_Calc g1 d = .ok (g2, y)
          ∧ g2.x = Function.update g1.x g1.I1 d :=
  LPF_fifo_order LPFMem.zero 9 3 [1, 2, 3, 4] (by decide) (by decide)

/-! ## Running sum against naive recomputation -/

theorem foldl_add32 (l : List Nat) (a : Nat) :
    l.foldl add32 a % 2 ^ 32 = (a + l.sum) % 2 ^ 32 := by
  induction l generalizing a with
  | nil => simp
  | cons b t ih =>
    simp only [List.foldl_cons, List.sum_cons]
    rw [ih (add32 a b)]
    simp only [add32]
    omega

theorem foldl_add32_lt (l : List Nat) (a : Nat) (ha : a < 2 ^ 32) :
    l.foldl add32 a < 2 ^ 32 := by
  induction l generalizing a with
  | nil => simpa using ha
  | cons b t ih =>
    simp only [List.foldl_cons]
    apply ih
    simp only [add32]
    omega

theorem sum32_eq (l : List Nat) : sum32 l = l.sum % 2 ^ 32 := by
  have h1 := foldl_add32 l 0
  have h2 := foldl_add32_lt l 0 (by decide)
  simp only [sum32]
  rw [Nat.mod_eq_of_lt h2] at h1
  rw [h1, Nat.zero_add]

/-- C20: in every state reachable from `LPF_Init(v, size)` with `size >= 1`,
and for every sample `s`, `LPF_Calc(s)` returns the same value as the naive
filter that stores `s` at the cursor slot, adds up all `Size` slots in 32-bit
wraparound arithmetic and divides by `Size`; `LPFSum` is congruent to the sum
of `x[0..Size-1]` modulo `2^32` before and after the call. -/
theorem LPF_Calc_refines_naive (size : Nat) (g : LPFMem) (s : Nat) (h1 : 1 ≤ size)
    (hr : Reachable size g) :
    ∃ g1, LPF_Calc g s = .ok (g1, naive_Calc g s)
      ∧ g.LPFSum = sum32 (bufList g)
      ∧ g1.LPFSum = sum32 (bufList g1)
      ∧ g.LPFSum % 2 ^ 32 = bufSum g % 2 ^ 32
      ∧ g1.LPFSum % 2 ^ 32 = bufSum g1 % 2 ^ 32 := by
  obtain ⟨hist, inv⟩ := Reachable_FilterInv size g h1 hr
  obtain ⟨g1, hc, inv1, hx, _⟩ :=
    LPF_Calc_step (min size 1024) s g hist (by omega) (by omega) inv
  have e0 : g.LPFSum = bufSum g % 2 ^ 32 := FilterInv_bufSum inv
  have e1 : g1.LPFSum = bufSum g1 % 2 ^ 32 := FilterInv_bufSum inv1
  have hout : (hist.tail ++ [s]).sum % 2 ^ 32 / min size 1024 = naive_Calc g s := by
    rw [← inv1.2.2.2, e1, ← inv.1]
    simp only [naive_Calc, sum32_eq, bufSum, hx, inv1.1, inv.1]
  rw [hout] at hc
  refine ⟨g1, hc, ?_, ?_, ?_, ?_⟩
  · rw [e0, sum32_eq]
    rfl
  · rw [e1, sum32_eq]
    rfl
  · rw [e0, Nat.mod_mod]
  · rw [e1, Nat.mod_mod]

theorem LPF_Calc_refines_naive_witness :
    ∃ g1, LPF_Calc (LPF_Init LPFMem.zero 4294967295 3) 4294967295
        = .ok (g1, naive_Calc (LPF_Init LPFMem.zero 4294967295 3) 4294967295)
      ∧ (LPF_Init LPFMem.zero 4294967295 3).LPFSum
          = sum32 (bufList (LPF_Init LPFMem.zero 4294967295 3))
      ∧ g1.LPFSum = sum32 (bufList g1)
      ∧ (LPF_Init LPFMem.zero 4294967295 3).LPFSum % 2 ^ 32
          = bufSum (LPF_Init LPFMem.zero 4294967295 3) % 2 ^ 32
      ∧ g1.LPFSum % 2 ^ 32 = bufSum g1 % 2 ^ 32 :=
  LPF_Calc_refines_naive 3 (LPF_Init LPFMem.zero 4294967295 3) 4294967295 (by decide)
    ⟨LPFMem.zero, 4294967295, [], rfl⟩

/-! ## Uninitialised use, window 1, range of the output -/

/-- C23 (counterexample): after `LPF_Init(7, 0)` the call `LPF_Calc(5)` does not
reach the division: the cursor was already set to `2^32 - 1` by `LPF_Init`, and
the call faults at the access `x[I1]`. -/
theorem LPF_Calc_after_Init_zero_counterexample :
    (LPF_Init LPFMem.zero 7 0).I1 = 4294967295
      ∧ LPF_Calc (LPF_Init LPFMem.zero 7 0) 5 = .error .indexOutOfBounds
      ∧ LPF_Calc (LPF_Init LPFMem.zero 7 0) 5 ≠ .error .divideByZero := by
  refine ⟨rfl, rfl, ?_⟩
  intro h
  have e : LPF_Calc (LPF_Init LPFMem.zero 7 0) 5 = .error .indexOutOfBounds := rfl
  rw [e] at h
  injection h with h
  exact absurd h (by decide)

/-- C23 (as amended): calling `LPF_Calc` before any `LPF_Init` (all module
variables zero) has no defined result: the call stores the sample in `x[0]`,
sets the cursor `I1` to `Size-1 = 2^32-1`, outside the buffer, and reaches the
division `LPFSum/Size` with `Size = 0`. Calling it after `LPF_Init(v, 0)` has
no defined result either: `LPF_Init` has left `Size = 0` and the cursor at
`2^32-1`, and the call faults at the access `x[I1]` outside the buffer. -/
theorem LPF_Calc_uninitialised :
    (∀ d, ∃ g1, LPF_Calc_body LPFMem.zero d = .ok g1
        ∧ g1.Size = 0 ∧ g1.I1 = 4294967295 ∧ ¬ g1.I1 < 1024
        ∧ LPF_Calc LPFMem.zero d = .error .divideByZero)
    ∧ (∀ (g : LPFMem) (v d : Nat),
        (LPF_Init g v 0).Size = 0 ∧ (LPF_Init g v 0).I1 = 4294967295
        ∧ LPF_Calc_body (LPF_Init g v 0) d = .error .indexOutOfBounds
        ∧ LPF_Calc (LPF_Init g v 0) d = .error .indexOutOfBounds) := by
  refine ⟨?_, ?_⟩
  · intro d
    refine ⟨_, rfl, rfl, rfl, ?_, rfl⟩
    show ¬ ((4294967295 : Nat) < 1024)
    decide
  · intro g v d
    have hS : (LPF_Init g v 0).Size = 0 := by
      rw [LPF_Init_Size]
      rfl
    have hI : (LPF_Init g v 0).I1 = 4294967295 := by
      have h : ¬ (0 > 1024) := by decide
      simp only [LPF_Init, if_neg h]
      rfl
    have hb : LPF_Calc_body (LPF_Init g v 0) d = .error .indexOutOfBounds := by
      have h : ¬ ((LPF_Init g v 0).I1 < 1024) := by
        rw [hI]
        decide
      simp only [LPF_Calc_body, if_neg h]
    refine ⟨hS, hI, hb, ?_⟩
    simp only [LPF_Calc, hb]

/-- C24: with window size 1 the filter is the identity: after `LPF_Init(v, 1)`,
every `LPF_Calc(s)` returns `s` itself, for every 32-bit `s` and every `v`. -/
theorem LPF_window_one_identity (g : LPFMem) (v s : Nat) (pre : List Nat)
    (hs : s < 2 ^ 32) :
    ∃ g1 g2, LPF_feed (LPF_Init g v 1) pre = .ok g1 ∧ LPF_Calc g1 s = .ok (g2, s) := by
  obtain ⟨g1, hf, inv⟩ := LPF_feed_history g v 1 pre (by decide) (by decide)
  obtain ⟨g2, hc, _⟩ := LPF_Calc_step 1 s g1 _ (by decide) (by decide) inv
  have hlen : (history v 1 pre).length = 1 := history_length v 1 pre
  have htail : (history v 1 pre).tail = [] := by
    apply List.eq_nil_of_length_eq_zero
    rw [List.length_tail, hlen]
  rw [htail] at hc
  simp only [List.nil_append, List.sum_singleton, Nat.div_one] at hc
  rw [Nat.mod_eq_of_lt hs] at hc
  exact ⟨g1, g2, hf, hc⟩

theorem LPF_window_one_identity_witness :
    ∃ g1 g2, LPF_feed (LPF_Init LPFMem.zero 4294967295 1) [4294967295, 0] = .ok g1
      ∧ LPF_Calc g1 4294967295 = .ok (g2, 4294967295) :=
  LPF_window_one_identity LPFMem.zero 4294967295 4294967295 [4294967295, 0] (by decide)

theorem exists_min_mem (l : List Nat) (h : l ≠ []) : ∃ m, m ∈ l ∧ ∀ a, a ∈ l → m ≤ a := by
  induction l with
  | nil => exact absurd rfl h
  | cons b t ih =>
    by_cases ht : t = []
    · subst ht
      exact ⟨b, by simp, by simp⟩
    · obtain ⟨m, hm, hall⟩ := ih ht
      by_cases hb : b ≤ m
      · refine ⟨b, by simp, ?_⟩
        intro a ha
        rcases List.mem_cons.mp ha with e | e
        · rw [e]
        · exact le_trans hb (hall a e)
      · refine ⟨m, by simp [hm], ?_⟩
        intro a ha
        rcases List.mem_cons.mp ha with e | e
        · rw [e]
          omega
        · exact hall a e

theorem exists_max_mem (l : List Nat) (h : l ≠ []) : ∃ m, m ∈ l ∧ ∀ a, a ∈ l → a ≤ m := by
  induction l with
  | nil => exact absurd rfl h
  | cons b t ih =>
    by_cases ht : t = []
    · subst ht
      exact ⟨b, by simp, by simp⟩
    · obtain ⟨m, hm, hall⟩ := ih ht
      by_cases hb : m ≤ b
      · refine ⟨b, by simp, ?_⟩
        intro a ha
        rcases List.mem_cons.mp ha with e | e
        · rw [e]
        · exact le_trans (hall a e) hb
      · refine ⟨m, by simp [hm], ?_⟩
        intro a ha
        rcases List.mem_cons.mp ha with e | e
        · rw [e]
          omega
        · exact hall a e

theorem length_mul_le_sum (m : Nat) (l : List Nat) (h : ∀ a ∈ l, m ≤ a) :
    l.length * m ≤ l.sum := by
  induction l with
  | nil => simp
  | cons a t ih =>
    have h1 : m ≤ a := h a (by simp)
    have h2 : t.length * m ≤ t.sum := ih (fun b hb => h b (by simp [hb]))
    simp only [List.sum_cons, List.length_cons]
    nlinarith

/-- C25: under the no-overflow condition (`1 <= w <= 1024` and `w` times the
largest value among seed and samples below `2^32`), every `LPF_Calc` output
lies between the minimum and the maximum of the last `w` values fed to the
channel (seed copies included). -/
theorem LPF_Calc_within_range (g : LPFMem) (v w M s : Nat) (pre : List Nat)
    (h1 : 1 ≤ w) (h2 : w ≤ 1024) (hv : v ≤ M) (hpre : ∀ d ∈ pre, d ≤ M) (hs : s ≤ M)
    (hM : w * M < 2 ^ 32) :
    ∃ g1 g2 y lo hi, LPF_feed (LPF_Init g v w) pre = .ok g1
      ∧ LPF_Calc g1 s = .ok (g2, y)
      ∧ lo ∈ history v w (pre ++ [s]) ∧ hi ∈ history v w (pre ++ [s])
      ∧ (∀ a, a ∈ history v w (pre ++ [s]) → lo ≤ a ∧ a ≤ hi)
      ∧ lo ≤ y ∧ y ≤ hi := by
  obtain ⟨g1, hf, inv⟩ := LPF_feed_history g v w pre h1 h2
  obtain ⟨g2, hc, _⟩ := LPF_Calc_step w s g1 _ h1 h2 inv
  rw [← history_snoc v w s pre h1] at hc
  have hall : ∀ d ∈ pre ++ [s], d ≤ M := by
    intro d hd
    rcases List.mem_append.mp hd with h | h
    · exact hpre d h
    · rw [List.mem_singleton.mp h]
      exact hs
  have hlt : (history v w (pre ++ [s])).sum < 2 ^ 32 :=
    lt_of_le_of_lt (history_sum_le M v w _ hv hall) hM
  rw [Nat.mod_eq_of_lt hlt] at hc
  have hlen : (history v w (pre ++ [s])).length = w := history_length v w _
  have hne : history v w (pre ++ [s]) ≠ [] := by
    intro e
    rw [e] at hlen
    simp at hlen
    omega
  obtain ⟨lo, hlo, hlo2⟩ := exists_min_mem _ hne
  obtain ⟨hi, hhi, hhi2⟩ := exists_max_mem _ hne
  have b1 := length_mul_le_sum lo _ hlo2
  have b2 := sum_le_length_mul hi _ hhi2
  rw [hlen] at b1 b2
  refine ⟨g1, g2, _, lo, hi, hf, hc, hlo, hhi, fun a ha => ⟨hlo2 a ha, hhi2 a ha⟩, ?_, ?_⟩
  · exact (Nat.le_div_iff_mul_le (by omega)).mpr (by rw [Nat.mul_comm]; exact b1)
  · exact Nat.div_le_of_le_mul (by exact b2)

theorem LPF_Calc_within_range_witness :
    ∃ g1 g2 y lo hi, LPF_feed (LPF_Init LPFMem.zero 1600 4) [1700, 1650] = .ok g1
      ∧ LPF_Calc g1 1800 = .ok (g2, y)
      ∧ lo ∈ history 1600 4 ([1700, 1650] ++ [1800])
      ∧ hi ∈ history 1600 4 ([1700, 1650] ++ [1800])
      ∧ (∀ a, a ∈ history 1600 4 ([1700, 1650] ++ [1800]) → lo ≤ a ∧ a ≤ hi)
      ∧ lo ≤ y ∧ y ≤ hi :=
  LPF_Calc_within_range LPFMem.zero 1600 4 16383 1800 [1700, 1650]
    (by decide) (by decide) (by decide) (by decide) (by decide) (by decide)

/-! ## Signs of the converted distances -/

theorem tdiv_neg_of_small (a : Nat) (d : Int) (hd : d < 0) (hs : -(a : Int) ≤ d) :
    Int.tdiv (a : Int) d < 0 := by
  obtain ⟨n, hn⟩ := Int.eq_ofNat_of_zero_le (show (0 : Int) ≤ -d by omega)
  have e : d = -(n : Int) := by omega
  rw [e, Int.tdiv_neg, tdiv_pos_eq]
  have hn1 : 1 ≤ n := by omega
  have hn2 : n ≤ a := by omega
  have hq : 1 ≤ a / n := (Nat.le_div_iff_mul_le (by omega)).mpr (by omega)
  omega

/-- C26: for every 32-bit reading `nr != 2390`, `RightConvert(nr)` lies between
0 and 100000 inclusive, and it is exactly 0 for every `nr < 2390` (the
subtraction and the division are unsigned); `LeftConvert` and `CenterConvert`
return a negative value for every reading below their offset that is within
the scale (100000, 836100) of it. -/
theorem RightConvert_never_negative :
    (∀ nr : Nat, nr < 2 ^ 32 → nr ≠ 2390 →
        ∃ y, RightConvert nr = .ok y ∧ 0 ≤ y ∧ y ≤ 100000 ∧ (nr < 2390 → y = 0))
    ∧ (∀ nl : Int, 2630 - 100000 ≤ nl → nl < 2630 →
        ∃ y, LeftConvert nl = .ok y ∧ y < 0)
    ∧ (∀ nc : Int, 1558 - 836100 ≤ nc → nc < 1558 →
        ∃ y, CenterConvert nc = .ok y ∧ y < 0) := by
  refine ⟨?_, ?_, ?_⟩
  · intro nr hhi h0
    have hd : sub32 nr 2390 ≠ 0 := by
      simp only [sub32]
      omega
    have hq : 100000 / sub32 nr 2390 ≤ 100000 := Nat.div_le_self _ _
    refine ⟨toI32 (100000 / sub32 nr 2390), by simp only [RightConvert, if_neg hd], ?_, ?_, ?_⟩
    · rw [toI32_small _ (by omega)]
      exact Int.ofNat_nonneg _
    · rw [toI32_small _ (by omega)]
      exact_mod_cast hq
    · intro hlt
      have hbig : 100000 < sub32 nr 2390 := by
        simp only [sub32]
        omega
      rw [Nat.div_eq_of_lt hbig]
      rfl
  · intro nl h1 h2
    refine ⟨_, LeftConvert_eq nl (by omega) (by omega) (by omega), ?_⟩
    exact tdiv_neg_of_small 100000 (nl - 2630) (by omega) (by omega)
  · intro nc h1 h2
    refine ⟨_, CenterConvert_eq nc (by omega) (by omega) (by omega), ?_⟩
    exact tdiv_neg_of_small 836100 (nc - 1558) (by omega) (by omega)

theorem RightConvert_never_negative_witness :
    (∃ y, RightConvert 0 = .ok y ∧ 0 ≤ y ∧ y ≤ 100000 ∧ (0 < 2390 → y = 0))
    ∧ (∃ y, LeftConvert 0 = .ok y ∧ y < 0)
    ∧ (∃ y, CenterConvert 0 = .ok y ∧ y < 0) :=
  ⟨RightConvert_never_negative.1 0 (by decide) (by decide),
   RightConvert_never_negative.2.1 0 (by decide) (by decide),
   RightConvert_never_negative.2.2 0 (by decide) (by decide)⟩

/-! ## Re-initialisation -/

theorem LPF_feed_keeps_high (w : Nat) (h1 : 1 ≤ w) (h2 : w ≤ 1024) :
    ∀ (ds : List Nat) (g g1 : LPFMem) (hist : List Nat), FilterInv w g hist →
      LPF_feed g ds = .ok g1 → ∀ i, w ≤ i → g1.x i = g.x i := by
  intro ds
  induction ds with
  | nil =>
    intro g g1 hist _ hf i _
    simp only [LPF_feed, Except.ok.injEq] at hf
    rw [hf]
  | cons d ds ih =>
    intro g g1 hist inv hf i hi
    obtain ⟨g2, hc, inv2, hx, _⟩ := LPF_Calc_step w d g hist h1 h2 inv
    simp only [LPF_feed, hc] at hf
    rw [ih g2 g1 _ inv2 hf i hi, hx]
    have hI := inv.2.1
    exact Function.update_noteq (by omega) _ _

/-- C22: for any two prior filter states, `LPF_Init(v, w)` with
`1 <= w <= 1024` followed by the same sample sequence produces the same
`LPF_Calc` outputs; the slots at index `>= w`, which neither `LPF_Init` nor
`LPF_Calc` writes, keep their prior contents and do not influence the
outputs. -/
theorem LPF_reinit_erases_history (g h : LPFMem) (v w s : Nat) (pre : List Nat)
    (h1 : 1 ≤ w) (h2 : w ≤ 1024) :
    ∃ g1 h1 g2 h2 y, LPF_feed (LPF_Init g v w) pre = .ok g1
      ∧ LPF_feed (LPF_Init h v w) pre = .ok h1
      ∧ LPF_Calc g1 s = .ok (g2, y) ∧ LPF_Calc h1 s = .ok (h2, y)
      ∧ (∀ i, w ≤ i → g2.x i = g.x i) ∧ (∀ i, w ≤ i → h2.x i = h.x i) := by
  obtain ⟨hSg, _, _, hxg⟩ := LPF_Init_fields g v w h1 h2
  obtain ⟨hSh, _, _, hxh⟩ := LPF_Init_fields h v w h1 h2
  obtain ⟨g1, hfg, invg⟩ := LPF_feed_history g v w pre h1 h2
  obtain ⟨k1, hfh, invh⟩ := LPF_feed_history h v w pre h1 h2
  obtain ⟨g2, hcg, _, hx2g, _⟩ := LPF_Calc_step w s g1 _ h1 h2 invg
  obtain ⟨k2, hch, _, hx2h, _⟩ := LPF_Calc_step w s k1 _ h1 h2 invh
  have kg := LPF_feed_keeps_high w h1 h2 pre _ g1 _ (LPF_Init_inv g v w h1 h2) hfg
  have kh := LPF_feed_keeps_high w h1 h2 pre _ k1 _ (LPF_Init_inv h v w h1 h2) hfh
  refine ⟨g1, k1, g2, k2, _, hfg, hfh, hcg, hch, ?_, ?_⟩
  · intro i hi
    have hI := invg.2.1
    rw [hx2g, Function.update_noteq (by omega), kg i hi, hxg]
    simp only [if_neg (show ¬ i < w by omega)]
  · intro i hi
    have hI := invh.2.1
    rw [hx2h, Function.update_noteq (by omega), kh i hi, hxh]
    simp only [if_neg (show ¬ i < w by omega)]

theorem LPF_reinit_erases_history_witness :
    ∃ g1 h1 g2 h2 y,
      LPF_feed (LPF_Init LPFMem.zero 5 2) [1, 2, 3] = .ok g1
      ∧ LPF_feed (LPF_Init (LPF_Init LPFMem.zero 4294967295 1024) 5 2) [1, 2, 3] = .ok h1
      ∧ LPF_Calc g1 4 = .ok (g2, y) ∧ LPF_Calc h1 4 = .ok (h2, y)
      ∧ (∀ i, 2 ≤ i → g2.x i = LPFMem.zero.x i)
      ∧ (∀ i, 2 ≤ i → h2.x i = (LPF_Init LPFMem.zero 4294967295 1024).x i) :=
  LPF_reinit_erases_history LPFMem.zero (LPF_Init LPFMem.zero 4294967295 1024) 5 2 4 [1, 2, 3]
    (by decide) (by decide)

/-! ## The two obstacle tests -/

theorem toU32_natCast (n : Nat) (h : n < 4294967296) : toU32 (n : Int) = n := by
  simp only [toU32]
  omega

/-- C27 (code at the failing input): for the filtered reading 1000, and for
every reading below the offset 1558, the test of `SysTick_Handler` reports no
obstacle while the test of `M3_Obstacle_Stop_Resume` reports an obstacle
(`CenterConvert(1000) = -1498`); for readings above the offset both report an
obstacle exactly when `r >= 5739`. -/
theorem obstacle_tests_differ_below_offset :
    SysTick_obstacle_test 1000 = .ok false ∧ M3_obstacle_test 1000 = .ok true
    ∧ CenterConvert 1000 = .ok (-1498)
    ∧ (∀ r : Nat, r < 1558 →
        SysTick_obstacle_test r = .ok false ∧ M3_obstacle_test r = .ok true)
    ∧ (∀ r : Nat, 1558 < r → r ≤ 2147483647 →
        SysTick_obstacle_test r = .ok (decide (5739 ≤ r))
        ∧ M3_obstacle_test r = .ok (decide (5739 ≤ r))) := by
  have low : ∀ r : Nat, r < 1558 →
      SysTick_obstacle_test r = .ok false ∧ M3_obstacle_test r = .ok true := by
    intro r hr
    have hI : toI32 r = (r : Int) := toI32_small r (by omega)
    have hc := CenterConvert_eq (r : Int) (by omega) (by omega) (by omega)
    have hneg : Int.tdiv 836100 ((r : Int) - 1558) < 0 :=
      tdiv_neg_of_small 836100 ((r : Int) - 1558) (by omega) (by omega)
    have hb := tdiv_abs_le 836100 ((r : Int) - 1558)
    have hU : ¬ (toU32 (Int.tdiv 836100 ((r : Int) - 1558)) < 200) := by
      simp only [toU32]
      omega
    have hS : Int.tdiv 836100 ((r : Int) - 1558) < 200 := by omega
    constructor
    · simp only [SysTick_obstacle_test, hI, hc, hU, decide_False]
    · simp only [M3_obstacle_test, hI, hc, hS, decide_True]
  refine ⟨(low 1000 (by decide)).1, (low 1000 (by decide)).2, rfl, low, ?_⟩
  intro r h1 h2
  have hI : toI32 r = (r : Int) := toI32_small r (by omega)
  have hc := CenterConvert_eq (r : Int) (by omega) (by omega) (by omega)
  have e : ((r : Int) - 1558) = ((r - 1558 : Nat) : Int) := by omega
  rw [e] at hc
  have e2 : Int.tdiv ((836100 : Nat) : Int) ((r - 1558 : Nat) : Int)
      = ((836100 / (r - 1558) : Nat) : Int) := tdiv_pos_eq 836100 (r - 1558)
  have e3 : Int.tdiv 836100 ((r - 1558 : Nat) : Int) = ((836100 / (r - 1558) : Nat) : Int) := e2
  rw [e3] at hc
  have hq : 836100 / (r - 1558) < 200 ↔ 5739 ≤ r := by
    rw [Nat.div_lt_iff_lt_mul (by omega)]
    omega
  have hqle : 836100 / (r - 1558) ≤ 836100 := Nat.div_le_self _ _
  have hU : toU32 ((836100 / (r - 1558) : Nat) : Int) = 836100 / (r - 1558) :=
    toU32_natCast _ (by omega)
  have hz : (((836100 / (r - 1558) : Nat) : Int) < 200) ↔ 5739 ≤ r := by
    rw [← hq]
    omega
  constructor
  · simp only [SysTick_obstacle_test, hI, hc, hU]
    exact congrArg Except.ok (decide_eq_decide.mpr hq)
  · simp only [M3_obstacle_test, hI, hc]
    exact congrArg Except.ok (decide_eq_decide.mpr hz)

/-! ## PWM: duty below period -/

theorem PWM_Init34_keeps (r : PWMRegs) (p d3 d4 : Nat)
    (h : r.CCR 3 < r.CCR 0 ∧ r.CCR 4 < r.CCR 0) :
    (PWM_Init34 r p d3 d4).CCR 3 < (PWM_Init34 r p d3 d4).CCR 0
      ∧ (PWM_Init34 r p d3 d4).CCR 4 < (PWM_Init34 r p d3 d4).CCR 0 := by
  by_cases h3 : d3 ≥ p
  · simp only [PWM_Init34, if_pos h3]
    exact h
  · by_cases h4 : d4 ≥ p
    · simp only [PWM_Init34, if_neg h3, if_pos h4]
      exact h
    · simp only [PWM_Init34, if_neg h3, if_neg h4]
      simp [Function.update]
      omega

theorem PWM_Duty3_eq (r : PWMRegs) (d : Nat) :
    PWM_Duty3 r d
      = { r with CCR := Function.update r.CCR 3 (if d ≥ r.CCR 0 then r.CCR 3 else d) } := by
  by_cases h : d ≥ r.CCR 0
  · simp only [PWM_Duty3, if_pos h, Function.update_eq_self]
  · simp only [PWM_Duty3, if_neg h]

theorem PWM_Duty4_eq (r : PWMRegs) (d : Nat) :
    PWM_Duty4 r d
      = { r with CCR := Function.update r.CCR 4 (if d ≥ r.CCR 0 then r.CCR 4 else d) } := by
  by_cases h : d ≥ r.CCR 0
  · simp only [PWM_Duty4, if_pos h, Function.update_eq_self]
  · simp only [PWM_Duty4, if_neg h]

theorem PWMCall_exec_keeps (r : PWMRegs) (k : PWMCall)
    (h : r.CCR 3 < r.CCR 0 ∧ r.CCR 4 < r.CCR 0) :
    (k.exec r).CCR 3 < (k.exec r).CCR 0 ∧ (k.exec r).CCR 4 < (k.exec r).CCR 0 := by
  cases k with
  | Init34 p d3 d4 => exact PWM_Init34_keeps r p d3 d4 h
  | Duty3 d =>
    simp only [PWMCall.exec, PWM_Duty3_eq]
    by_cases c : d ≥ r.CCR 0
    · simp [Function.update, c]
      exact h
    · simp [Function.update, c]
      omega
  | Duty4 d =>
    simp only [PWMCall.exec, PWM_Duty4_eq]
    by_cases c : d ≥ r.CCR 0
    · simp [Function.update, c]
      exact h
    · simp [Function.update, c]
      omega

theorem runPWM_keeps :
    ∀ (ks : List PWMCall) (r : PWMRegs), r.CCR 3 < r.CCR 0 ∧ r.CCR 4 < r.CCR 0 →
      (runPWM r ks).CCR 3 < (runPWM r ks).CCR 0 ∧ (runPWM r ks).CCR 4 < (runPWM r ks).CCR 0 := by
  intro ks
  induction ks with
  | nil => intro r h; exact h
  | cons k ks ih =>
    intro r h
    simp only [runPWM]
    exact ih _ (PWMCall_exec_keeps r k h)

/-- C28: from any register state with `CCR[3] < CCR[0]` and `CCR[4] < CCR[0]`,
every sequence of `PWM_Init34`, `PWM_Duty3` and `PWM_Duty4` calls keeps
`CCR[3] < CCR[0]` and `CCR[4] < CCR[0]`; the state after an accepted
`PWM_Init34` is such a state; `PWM_Duty3` changes at most `CCR[3]`,
`PWM_Duty4` at most `CCR[4]`, and neither changes `CCR[0]`. -/
theorem PWM_duty_below_period (r : PWMRegs) (ks : List PWMCall)
    (h3 : r.CCR 3 < r.CCR 0) (h4 : r.CCR 4 < r.CCR 0) :
    (runPWM r ks).CCR 3 < (runPWM r ks).CCR 0
    ∧ (runPWM r ks).CCR 4 < (runPWM r ks).CCR 0
    ∧ (∀ (q : PWMRegs) (p d3 d4 : Nat), d3 < p → d4 < p →
        (PWM_Init34 q p d3 d4).CCR 3 < (PWM_Init34 q p d3 d4).CCR 0
        ∧ (PWM_Init34 q p d3 d4).CCR 4 < (PWM_Init34 q p d3 d4).CCR 0)
    ∧ (∀ (q : PWMRegs) (d : Nat),
        (∃ c, PWM_Duty3 q d = { q with CCR := Function.update q.CCR 3 c })
        ∧ (∃ c, PWM_Duty4 q d = { q with CCR := Function.update q.CCR 4 c })
        ∧ (PWM_Duty3 q d).CCR 0 = q.CCR 0 ∧ (PWM_Duty4 q d).CCR 0 = q.CCR 0) := by
  obtain ⟨a, b⟩ := runPWM_keeps ks r ⟨h3, h4⟩
  refine ⟨a, b, ?_, ?_⟩
  · intro q p d3 d4 c3 c4
    have n3 : ¬ d3 ≥ p := by omega
    have n4 : ¬ d4 ≥ p := by omega
    simp only [PWM_Init34, if_neg n3, if_neg n4]
    simp [Function.update]
    omega
  · intro q d
    refine ⟨⟨_, PWM_Duty3_eq q d⟩, ⟨_, PWM_Duty4_eq q d⟩, ?_, ?_⟩
    · rw [PWM_Duty3_eq]
      simp [Function.update]
    · rw [PWM_Duty4_eq]
      simp [Function.update]

theorem PWM_duty_below_period_witness :
    (runPWM ⟨0, 0, 0, fun _ => 0, fun i => if i = 0 then 7500 else 0, 0, 0⟩
        [.Duty3 8000, .Duty4 7499, .Init34 100 99 100, .Init34 200 50 60, .Duty3 199]).CCR 3
      < (runPWM ⟨0, 0, 0, fun _ => 0, fun i => if i = 0 then 7500 else 0, 0, 0⟩
        [.Duty3 8000, .Duty4 7499, .Init34 100 99 100, .Init34 200 50 60, .Duty3 199]).CCR 0 :=
  (PWM_duty_below_period ⟨0, 0, 0, fun _ => 0, fun i => if i = 0 then 7500 else 0, 0, 0⟩
    [.Duty3 8000, .Duty4 7499, .Init34 100 99 100, .Init34 200 50 60, .Duty3 199]
    (by decide) (by decide)).1

/-! ## Port1_Output -/

theorem lor_double (a d : Nat) :
    (2 * a ||| d) % 2 = d % 2 ∧ (2 * a ||| d) / 2 = a ||| d / 2 := by
  have h2 : 2 * a = Nat.bit false a := by simp [Nat.bit]
  have key : ∀ (b : Bool) (n : Nat),
      (2 * a ||| Nat.bit b n) % 2 = Nat.bit b n % 2
        ∧ (2 * a ||| Nat.bit b n) / 2 = a ||| Nat.bit b n / 2 := by
    intro b n
    rw [h2, Nat.lor_bit]
    simp [Nat.bit_mod_two, Nat.bit_div_two]
  have h := key d.bodd d.div2
  rwa [Nat.bit_decomp] at h

set_option maxRecDepth 100000 in
theorem mask_fe : ∀ o, o < 256 → o &&& 0xFE = 2 * (o / 2) := by
  decide

/-- C29 (counterexample): with P1 OUT = `0x12`, `Port1_Output(0xFF)` leaves
P1 OUT = `0xFF`: bits 1 to 7 changed from `0x09` to `0x7F`. -/
theorem Port1_Output_counterexample :
    (Port1_Output ⟨0, 0x12, 0⟩ 0xFF).P1_OUT = 0xFF
      ∧ (Port1_Output ⟨0, 0x12, 0⟩ 0xFF).P1_OUT / 2 = 0x7F
      ∧ (0x12 : Nat) / 2 = 0x09 := by
  decide

/-- C29 (as amended): for every data byte and every previous value of P1 OUT,
after `Port1_Output(data)` P1 OUT is `(old & 0xFE) | data`: bit 0 equals bit 0
of `data`, and bits 1 to 7 are the previous bits OR-ed with bits 1 to 7 of
`data`; they keep their previous values when `data` is 0 or 1. -/
theorem Port1_Output_bits (s : GPIO) (data : Nat) (ho : s.P1_OUT < 256) (hd : data < 256) :
    (Port1_Output s data).P1_OUT = (s.P1_OUT &&& 0xFE) ||| data
      ∧ (Port1_Output s data).P1_OUT % 2 = data % 2
      ∧ (Port1_Output s data).P1_OUT / 2 = s.P1_OUT / 2 ||| data / 2
      ∧ (data ≤ 1 → (Port1_Output s data).P1_OUT / 2 = s.P1_OUT / 2)
      ∧ (Port1_Output s data).P1_IN = s.P1_IN
      ∧ (Port1_Output s data).P2_OUT = s.P2_OUT := by
  have hm := mask_fe s.P1_OUT ho
  have hlt : (s.P1_OUT &&& 0xFE) ||| data < 2 ^ 8 := by
    apply Nat.or_lt_two_pow
    · rw [hm]
      omega
    · exact hd
  have e : (Port1_Output s data).P1_OUT = (s.P1_OUT &&& 0xFE) ||| data := by
    simp only [Port1_Output]
    exact Nat.mod_eq_of_lt hlt
  obtain ⟨l1, l2⟩ := lor_double (s.P1_OUT / 2) data
  refine ⟨e, ?_, ?_, ?_, rfl, rfl⟩
  · rw [e, hm]
    exact l1
  · rw [e, hm]
    exact l2
  · intro h1
    rw [e, hm, l2]
    have hz : data / 2 = 0 := by omega
    rw [hz]
    simp

theorem Port1_Output_bits_witness :
    (Port1_Output ⟨0, 0x12, 0⟩ 1).P1_OUT = ((0x12 : Nat) &&& 0xFE) ||| 1
      ∧ (Port1_Output ⟨0, 0x12, 0⟩ 1).P1_OUT % 2 = 1 % 2
      ∧ (Port1_Output ⟨0, 0x12, 0⟩ 1).P1_OUT = 0x13 :=
  ⟨(Port1_Output_bits ⟨0, 0x12, 0⟩ 1 (by decide) (by decide)).1,
   (Port1_Output_bits ⟨0, 0x12, 0⟩ 1 (by decide) (by decide)).2.1,
   by decide⟩

/-! ## Tick bookkeeping -/

theorem LPF_Init3_loop_eq (initial Size3 : Nat) :
    ∀ (fuel i : Nat) (x3 : Nat → Nat), Size3 ≤ i + fuel →
      LPF_Init3_loop initial Size3 fuel i x3
        = fun j => if i ≤ j ∧ j < Size3 then initial else x3 j := by
  intro fuel
  induction fuel with
  | zero =>
    intro i x3 h
    funext j
    have : ¬ (i ≤ j ∧ j < Size3) := by omega
    simp [LPF_Init3_loop, this]
  | succ n ih =>
    intro i x3 h
    funext j
    by_cases hi : i < Size3
    · rw [LPF_Init3_loop, if_pos hi, ih (i + 1) _ (by omega)]
      by_cases hj : j = i
      · subst hj
        simp [hi]
      · simp only [Function.update_noteq hj]
        by_cases h1 : i + 1 ≤ j ∧ j < Size3
        · rw [if_pos h1, if_pos ⟨by omega, h1.2⟩]
        · rw [if_neg h1, if_neg (by omega)]
    · rw [LPF_Init3_loop, if_neg hi, if_neg (by omega)]

theorem clamp_eq_min (size : Nat) : (if size > 1024 then 1024 else size) = min size 1024 := by
  split <;> omega

theorem initCall_exec (c : Channel) (g : LPFMem) (v size : Nat) :
    ∃ g1 xs, (initCall c v size).exec g = .ok (g1, none)
      ∧ chanState c g1
          = (min size 1024, xs, sub32 (min size 1024) 1, mul32 (min size 1024) v)
      ∧ ∀ i, i < min size 1024 → xs i = v := by
  have hle : min size 1024 ≤ 0 + 1024 := by omega
  cases c with
  | one =>
    refine ⟨LPF_Init g v size, LPF_Init_loop v (min size 1024) 1024 0 g.x, rfl, ?_, ?_⟩
    · simp only [chanState, LPF_Init, clamp_eq_min]
    · intro i hi
      rw [LPF_Init_loop_eq v (min size 1024) 1024 0 g.x hle]
      simp only [Nat.zero_le, true_and, if_pos hi]
  | two =>
    refine ⟨LPF_Init2 g v size, LPF_Init2_loop v (min size 1024) 1024 0 g.x2, rfl, ?_, ?_⟩
    · simp only [chanState, LPF_Init2, clamp_eq_min]
    · intro i hi
      rw [LPF_Init2_loop_eq v (min size 1024) 1024 0 g.x2 hle]
      simp only [Nat.zero_le, true_and, if_pos hi]
  | three =>
    refine ⟨LPF_Init3 g v size, LPF_Init3_loop v (min size 1024) 1024 0 g.x3, rfl, ?_, ?_⟩
    · simp only [chanState, LPF_Init3, clamp_eq_min]
    · intro i hi
      rw [LPF_Init3_loop_eq v (min size 1024) 1024 0 g.x3 hle]
      simp only [Nat.zero_le, true_and, if_pos hi]

theorem calcCall_exec (c : Channel) (g : LPFMem) (d : Nat) :
    (¬ (chanState c g).2.2.1 < 1024
        ∧ (calcCall c d).exec g = .error .indexOutOfBounds)
    ∨ ((chanState c g).2.2.1 < 1024 ∧ (chanState c g).1 = 0
        ∧ (calcCall c d).exec g = .error .divideByZero)
    ∨ ((chanState c g).2.2.1 < 1024 ∧ (chanState c g).1 ≠ 0 ∧ ∃ g1,
        (calcCall c d).exec g
          = .ok (g1, some (sub32 (add32 (chanState c g).2.2.2 d)
              ((chanState c g).2.1 (chanState c g).2.2.1) / (chanState c g).1))
        ∧ chanState c g1
          = ((chanState c g).1,
             Function.update (chanState c g).2.1 (chanState c g).2.2.1 d,
             (if (chanState c g).2.2.1 = 0 then sub32 (chanState c g).1 1
              else (chanState c g).2.2.1 - 1),
             sub32 (add32 (chanState c g).2.2.2 d)
              ((chanState c g).2.1 (chanState c g).2.2.1))) := by
  cases c with
  | one =>
    simp only [chanState, calcCall, Call.exec, LPF_Calc_unfold]
    by_cases c1 : g.I1 < 1024
    · by_cases c2 : g.Size = 0
      · right; left
        simp only [if_pos c1, if_pos c2]
        exact ⟨c1, c2, trivial⟩
      · right; right
        simp only [if_pos c1, if_neg c2]
        exact ⟨c1, c2, _, rfl, rfl⟩
    · left
      simp only [if_neg c1]
      exact ⟨c1, trivial⟩
  | two =>
    simp only [chanState, calcCall, Call.exec, LPF_Calc2_unfold]
    by_cases c1 : g.I2 < 1024
    · by_cases c2 : g.Size2 = 0
      · right; left
        simp only [if_pos c1, if_pos c2]
        exact ⟨c1, c2, trivial⟩
      · right; right
        simp only [if_pos c1, if_neg c2]
        exact ⟨c1, c2, _, rfl, rfl⟩
    · left
      simp only [if_neg c1]
      exact ⟨c1, trivial⟩
  | three =>
    simp only [chanState, calcCall, Call.exec, LPF_Calc3_unfold]
    by_cases c1 : g.I3 < 1024
    · by_cases c2 : g.Size3 = 0
      · right; left
        simp only [if_pos c1, if_pos c2]
        exact ⟨c1, c2, trivial⟩
      · right; right
        simp only [if_pos c1, if_neg c2]
        exact ⟨c1, c2, _, rfl, rfl⟩
    · left
      simp only [if_neg c1]
      exact ⟨c1, trivial⟩

theorem initCall_live (c1 c2 : Channel) (g h : LPFMem) (v size : Nat) :
    ∃ g1 h1, (initCall c1 v size).exec g = .ok (g1, none)
      ∧ (initCall c2 v size).exec h = .ok (h1, none)
      ∧ LiveEq (chanState c1 g1) (chanState c2 h1) := by
  obtain ⟨g1, xs, e1, s1, a1⟩ := initCall_exec c1 g v size
  obtain ⟨h1, ys, e2, s2, a2⟩ := initCall_exec c2 h v size
  refine ⟨g1, h1, e1, e2, ?_⟩
  rw [s1, s2]
  refine ⟨rfl, rfl, rfl, by simp only; omega, ?_, ?_⟩
  · intro i hi
    simp only at hi ⊢
    rw [a1 i hi, a2 i hi]
  · simp only [sub32]
    omega

theorem calcCall_live (c1 c2 : Channel) (g h : LPFMem) (d : Nat)
    (hl : LiveEq (chanState c1 g) (chanState c2 h)) :
    (∃ e, (calcCall c1 d).exec g = .error e ∧ (calcCall c2 d).exec h = .error e)
    ∨ (∃ g1 h1 y, (calcCall c1 d).exec g = .ok (g1, some y)
        ∧ (calcCall c2 d).exec h = .ok (h1, some y)
        ∧ LiveEq (chanState c1 g1) (chanState c2 h1)) := by
  obtain ⟨hS, hI, hL, hB, hX, hC⟩ := hl
  rcases calcCall_exec c1 g d with ⟨a1, a2⟩ | ⟨a1, a2, a3⟩ | ⟨a1, a2, g1, a3, a4⟩
  · rcases calcCall_exec c2 h d with ⟨b1, b2⟩ | ⟨b1, _, _⟩ | ⟨b1, _, _⟩
    · exact Or.inl ⟨_, a2, b2⟩
    · rw [← hI] at b1
      exact absurd b1 a1
    · rw [← hI] at b1
      exact absurd b1 a1
  · rcases calcCall_exec c2 h d with ⟨b1, _⟩ | ⟨_, _, b3⟩ | ⟨_, b2, _⟩
    · rw [← hI] at b1
      exact absurd a1 b1
    · exact Or.inl ⟨_, a3, b3⟩
    · rw [← hS] at b2
      exact absurd a2 b2
  · rcases calcCall_exec c2 h d with ⟨b1, _⟩ | ⟨_, b2, _⟩ | ⟨_, _, h1, b3, b4⟩
    · rw [← hI] at b1
      exact absurd a1 b1
    · rw [← hS] at b2
      exact absurd b2 a2
    · have hin : (chanState c1 g).2.2.1 < (chanState c1 g).1 := by
        rcases hC with hC | hC
        · exact hC
        · omega
      have hx : (chanState c1 g).2.1 (chanState c1 g).2.2.1
          = (chanState c2 h).2.1 (chanState c1 g).2.2.1 := hX _ hin
      rw [← hS, ← hI, ← hL] at b3 b4
      rw [← hx] at b3 b4
      refine Or.inr ⟨g1, h1, _, a3, b3, ?_⟩
      rw [a4, b4]
      refine ⟨rfl, rfl, rfl, hB, ?_, ?_⟩
      · intro i hi
        simp only at hi ⊢
        by_cases e : i = (chanState c1 g).2.2.1
        · rw [e, Function.update_same, Function.update_same]
        · rw [Function.update_noteq e, Function.update_noteq e]
          exact hX i hi
      · left
        simp only [sub32]
        split <;> omega

theorem runCalls_cons (g : LPFMem) (k : Call) (ks : List Call) :
    runCalls g (k :: ks)
      = match k.exec g with
        | .error e => .error e
        | .ok r =>
          match runCalls r.1 ks with
          | .error e => .error e
          | .ok r2 => .ok (r2.1, tagged k.channel r.2 ++ r2.2) := rfl

theorem calc_run_live (c1 c2 : Channel) :
    ∀ (samples : List Nat) (g h : LPFMem), LiveEq (chanState c1 g) (chanState c2 h) →
      (∃ e, runCalls g (samples.map (calcCall c1)) = .error e
          ∧ runCalls h (samples.map (calcCall c2)) = .error e)
      ∨ (∃ r1 r2, runCalls g (samples.map (calcCall c1)) = .ok r1
          ∧ runCalls h (samples.map (calcCall c2)) = .ok r2
          ∧ r1.2.map Prod.snd = r2.2.map Prod.snd
          ∧ r1.2.length = samples.length
          ∧ LiveEq (chanState c1 r1.1) (chanState c2 r2.1)) := by
  intro samples
  induction samples with
  | nil =>
    intro g h hl
    exact Or.inr ⟨(g, []), (h, []), rfl, rfl, rfl, rfl, hl⟩
  | cons d ds ih =>
    intro g h hl
    simp only [List.map_cons, runCalls_cons]
    rcases calcCall_live c1 c2 g h d hl with ⟨e, a, b⟩ | ⟨g1, h1, y, a, b, hl1⟩
    · rw [a, b]
      exact Or.inl ⟨e, rfl, rfl⟩
    · rw [a, b]
      rcases ih g1 h1 hl1 with ⟨e, p, q⟩ | ⟨r1, r2, p, q, ho, hlen, hl2⟩
      · simp only [p, q]
        exact Or.inl ⟨e, rfl, rfl⟩
      · simp only [p, q]
        refine Or.inr ⟨_, _, rfl, rfl, ?_, ?_, hl2⟩
        · simp only [tagged, List.map_append, List.map_cons, List.map_nil, ho]
        · simp only [tagged, List.length_append, List.length_cons, List.length_nil, hlen]
          omega

theorem drive_live (c1 c2 : Channel) (g h : LPFMem) (v size : Nat) (samples : List Nat) :
    (∃ e, runCalls g (driveCalls c1 v size samples) = .error e
        ∧ runCalls h (driveCalls c2 v size samples) = .error e)
    ∨ (∃ r1 r2, runCalls g (driveCalls c1 v size samples) = .ok r1
        ∧ runCalls h (driveCalls c2 v size samples) = .ok r2
        ∧ r1.2.map Prod.snd = r2.2.map Prod.snd
        ∧ r1.2.length = samples.length
        ∧ LiveEq (chanState c1 r1.1) (chanState c2 r2.1)) := by
  obtain ⟨g1, h1, a, b, hl⟩ := initCall_live c1 c2 g h v size
  simp only [driveCalls, runCalls_cons, a, b]
  rcases calc_run_live c1 c2 samples g1 h1 hl with ⟨e, p, q⟩ | ⟨r1, r2, p, q, ho, hlen, hl2⟩
  · simp only [p, q]
    exact Or.inl ⟨e, rfl, rfl⟩
  · simp only [p, q]
    refine Or.inr ⟨_, _, rfl, rfl, ?_, ?_, hl2⟩
    · simp only [tagged, List.nil_append, ho]
    · simp only [tagged, List.nil_append, hlen]

theorem calc_run_ok (w : Nat) (h1 : 1 ≤ w) (h2 : w ≤ 1024) :
    ∀ (samples : List Nat) (g : LPFMem) (hist : List Nat), FilterInv w g hist →
      ∃ r, runCalls g (samples.map (calcCall .one)) = .ok r := by
  intro samples
  induction samples with
  | nil =>
    intro g hist _
    exact ⟨(g, []), rfl⟩
  | cons d ds ih =>
    intro g hist inv
    obtain ⟨g1, hc, inv1, _, _⟩ := LPF_Calc_step w d g hist h1 h2 inv
    obtain ⟨r, hr⟩ := ih g1 _ inv1
    have he : (calcCall .one d).exec g = .ok (g1, some ((hist.tail ++ [d]).sum % 2 ^ 32 / w)) := by
      simp only [calcCall, Call.exec, hc]
    simp only [List.map_cons, runCalls_cons, he, hr]
    exact ⟨_, rfl⟩

theorem drive_one_ok (g : LPFMem) (v size : Nat) (samples : List Nat) (h : 1 ≤ size) :
    ∃ r, runCalls g (driveCalls .one v size samples) = .ok r := by
  have inv : FilterInv (min size 1024) (LPF_Init g v size) (List.replicate (min size 1024) v) := by
    by_cases hs : 1024 < size
    · rw [LPF_Init_clamp g v size hs, Nat.min_eq_right (by omega)]
      exact LPF_Init_inv g v 1024 (by decide) (by decide)
    · rw [Nat.min_eq_left (by omega)]
      exact LPF_Init_inv g v size h (by omega)
  obtain ⟨r, hr⟩ := calc_run_ok (min size 1024) (by omega) (by omega) samples _ _ inv
  have he : (initCall .one v size).exec g = .ok (LPF_Init g v size, none) := rfl
  simp only [driveCalls, runCalls_cons, he, hr]
  exact ⟨_, rfl⟩

/-- C21: the three textually duplicated filters are the same function: for
every initial value, size and sample sequence, and from any prior states,
`LPF_Init/LPF_Calc`, `LPF_Init2/LPF_Calc2` and `LPF_Init3/LPF_Calc3` driven
with the same arguments either all stop at the same fault or all return, with
identical output sequences and corresponding final states (same window size,
cursor and sum, same contents of the slots `0 .. Size-1`); for `size >= 1`
they return. -/
theorem LPF_three_channels_same (g1 g2 g3 : LPFMem) (v size : Nat) (samples : List Nat) :
    ((∃ e, runCalls g1 (driveCalls .one v size samples) = .error e
        ∧ runCalls g2 (driveCalls .two v size samples) = .error e
        ∧ runCalls g3 (driveCalls .three v size samples) = .error e)
     ∧ ¬ (1 ≤ size))
    ∨ (∃ r1 r2 r3, runCalls g1 (driveCalls .one v size samples) = .ok r1
        ∧ runCalls g2 (driveCalls .two v size samples) = .ok r2
        ∧ runCalls g3 (driveCalls .three v size samples) = .ok r3
        ∧ r1.2.map Prod.snd = r2.2.map Prod.snd
        ∧ r1.2.map Prod.snd = r3.2.map Prod.snd
        ∧ r1.2.length = samples.length
        ∧ LiveEq (chanState .one r1.1) (chanState .two r2.1)
        ∧ LiveEq (chanState .one r1.1) (chanState .three r3.1)) := by
  rcases drive_live .one .two g1 g2 v size samples with
    ⟨e, a, b⟩ | ⟨r1, r2, a, b, ho, hlen, hl⟩
  · rcases drive_live .one .three g1 g3 v size samples with
      ⟨e2, a2, b2⟩ | ⟨_, _, a2, _, _, _, _⟩
    · rw [a] at a2
      injection a2 with a2
      subst a2
      refine Or.inl ⟨⟨e, a, b, b2⟩, ?_⟩
      intro hs
      obtain ⟨r, hr⟩ := drive_one_ok g1 v size samples hs
      rw [a] at hr
      exact absurd hr (by simp)
    · rw [a] at a2
      exact absurd a2 (by simp)
  · rcases drive_live .one .three g1 g3 v size samples with
      ⟨e2, a2, _⟩ | ⟨r1b, r3, a2, b2, ho2, _, hl2⟩
    · rw [a] at a2
      exact absurd a2 (by simp)
    · rw [a] at a2
      injection a2 with a2
      subst a2
      exact Or.inr ⟨r1, r2, r3, a, b, b2, ho, ho2, hlen, hl, hl2⟩

end Sc2107
